import Mathlib

/-! gowiki: a shallow embedding of `wiki.go`.

Go values are embedded as follows.

* a Go `string` is a Lean `String` (the text read as a sequence of code points, which is
  how `regexp` reads it; bytes that are not UTF-8 have no counterpart here, `regexp` reads
  each of them as U+FFFD, which no part of `validPath` matches), a `[]byte` is a
  `List UInt8`;
* the filesystem is a map from path to bytes, together with the paths at which the
  operating system refuses a write;
* an `http.ResponseWriter` is the list of the library calls made on it so far, each with
  its arguments;
* the pre-parsed `templates` are a parameter, since the template files are not part of
  the program text.
-/

namespace GoWiki

/-! ## `regexp`: syntax and a backtracking matcher with leftmost-first preference -/

/-- Abstract syntax of the regular expressions used by the program. -/
inductive Regex where
  /-- The anchor `^`: beginning of text. -/
  | bol : Regex
  /-- The anchor `$`: end of text (Go has no multi-line flag set by default). -/
  | eol : Regex
  /-- A literal string. -/
  | lit (s : List Char) : Regex
  /-- A character class given by inclusive ranges, such as `[a-zA-Z0-9]`. -/
  | cls (ranges : List (Char × Char)) : Regex
  /-- Concatenation. -/
  | seq (a b : Regex) : Regex
  /-- Alternation `a|b`, preferring `a`. -/
  | alt (a b : Regex) : Regex
  /-- Greedy repetition `a+`. -/
  | plus (a : Regex) : Regex
  /-- Capturing group number `i`. -/
  | group (i : Nat) (a : Regex) : Regex

/-- A matcher thread: how many characters of the text are consumed, the unread text,
and the capture registers written so far (most recent first). -/
structure Thread where
  pos : Nat
  rest : List Char
  caps : List (Nat × List Char)
deriving DecidableEq, Repr

/-- Membership of a character in a class given by inclusive ranges. -/
def inClass (ranges : List (Char × Char)) (c : Char) : Bool :=
  ranges.any fun r => decide (r.1 ≤ c) && decide (c ≤ r.2)

/-- Greedy iteration of a matcher `f`: every iteration must consume text, more
iterations are preferred to fewer. The first argument bounds the number of iterations. -/
def plusLoop (f : Thread → List Thread) : Nat → Thread → List Thread
  | 0, _ => []
  | n + 1, t =>
    (f t).flatMap fun t1 =>
      (if t1.rest.length < t.rest.length then plusLoop f n t1 else []) ++ [t1]

/-- All the ways `re` matches at thread `t`, in order of preference. -/
def Regex.run : Regex → Thread → List Thread
  | .bol, t => if t.pos = 0 then [t] else []
  | .eol, t => if t.rest.isEmpty then [t] else []
  | .lit s, t =>
    if s.isPrefixOf t.rest then [{ t with pos := t.pos + s.length, rest := t.rest.drop s.length }]
    else []
  | .cls ranges, t =>
    match t.rest with
    | [] => []
    | c :: cs => if inClass ranges c then [{ t with pos := t.pos + 1, rest := cs }] else []
  | .seq a b, t => (a.run t).flatMap b.run
  | .alt a b, t => a.run t ++ b.run t
  | .plus a, t => plusLoop a.run (t.rest.length + 1) t
  | .group i a, t =>
    (a.run t).map fun t1 => { t1 with caps := (i, t.rest.take (t1.pos - t.pos)) :: t1.caps }

/-- Number of capturing groups of a regular expression. -/
def Regex.numSubexp : Regex → Nat
  | .seq a b => a.numSubexp + b.numSubexp
  | .alt a b => a.numSubexp + b.numSubexp
  | .plus a => a.numSubexp
  | .group _ a => a.numSubexp + 1
  | _ => 0

/-- Leftmost match: the preferred match at the first start offset that has one.
Returns the text from the start offset and the final thread. -/
def Regex.search (re : Regex) : Nat → List Char → Option (List Char × Nat × Thread)
  | pos, [] => (re.run ⟨pos, [], []⟩).head?.map fun t => ([], pos, t)
  | pos, c :: cs =>
    match re.run ⟨pos, c :: cs, []⟩ with
    | t :: _ => some (c :: cs, pos, t)
    | [] => re.search (pos + 1) cs

/-- Text of capture register `i` of a thread, `""` when the group took no part. -/
def Thread.cap (t : Thread) (i : Nat) : String :=
  match t.caps.lookup i with
  | some s => String.mk s
  | none => ""

/-- `(*Regexp).FindStringSubmatch`: `none` is Go's `nil`; otherwise element 0 is the
text of the leftmost match and element `i` the text of the `i`-th group. -/
def Regex.FindStringSubmatch (re : Regex) (s : String) : Option (List String) :=
  (re.search 0 s.data).map fun m =>
    String.mk (m.1.take (m.2.2.pos - m.2.1)) ::
      (List.range re.numSubexp).map fun i => m.2.2.cap (i + 1)

/-- The program's `validPath`:
`regexp.MustCompile("^/(edit|save|view)/([a-zA-Z0-9]+)$")`. -/
def validPath : Regex :=
  .seq .bol <| .seq (.lit ['/']) <|
    .seq (.group 1 (.alt (.lit "edit".data) (.alt (.lit "save".data) (.lit "view".data)))) <|
    .seq (.lit ['/']) <| .seq (.group 2 (.plus (.cls [('a', 'z'), ('A', 'Z'), ('0', '9')]))) .eol

/-! ## `path`: lexical path cleaning and joining -/

/-- The `..` case of `Clean` when it can backtrack, on the reversed buffer: drop the last
byte written, then keep dropping while more than `dotdot` bytes remain and the byte just
dropped is not `/`. -/
def backtrack (dotdot : Nat) : List Char → List Char
  | [] => []
  | c :: revOut =>
    if revOut.length > dotdot ∧ c ≠ '/' then backtrack dotdot revOut else revOut

/-- The main loop of `path.Clean`. `rest` is the unread part of the path, `out` the
buffer written so far, `dotdot` the length of the part of `out` that `..` must not
remove. Every iteration reads at least one byte, so the first argument, an upper bound
on the iterations, is the length of the path. -/
def cleanLoop (rooted : Bool) : Nat → List Char → List Char → Nat → List Char
  | 0, _, out, _ => out
  | _ + 1, [], out, _ => out
  | n + 1, c :: rs, out, dotdot =>
    if c = '/' then
      -- empty path element
      cleanLoop rooted n rs out dotdot
    else if c = '.' ∧ (rs = [] ∨ rs.head? = some '/') then
      -- . element
      cleanLoop rooted n rs out dotdot
    else if c = '.' ∧ rs.head? = some '.' ∧ (rs.tail = [] ∨ rs.tail.head? = some '/') then
      -- .. element: remove to last /
      if out.length > dotdot then
        cleanLoop rooted n rs.tail (backtrack dotdot out.reverse).reverse dotdot
      else if !rooted then
        let out1 := if out.length > 0 then out ++ ['/'] else out
        let out2 := out1 ++ ['.', '.']
        cleanLoop rooted n rs.tail out2 out2.length
      else
        cleanLoop rooted n rs.tail out dotdot
    else
      -- real path element: add slash if needed, copy element
      let out1 :=
        if (rooted && out.length != 1) || (!rooted && out.length != 0) then out ++ ['/'] else out
      cleanLoop rooted n ((c :: rs).dropWhile (· ≠ '/')) (out1 ++ (c :: rs).takeWhile (· ≠ '/'))
        dotdot

/-- The function `path.Clean`. The output buffer of the source shares storage with the
path until the two differ; here it is a list of its own. -/
def Clean (path : String) : String :=
  if path = "" then "."
  else
    let rooted := path.data.head? = some '/'
    let out :=
      if rooted then cleanLoop true path.length path.data.tail ['/'] 1
      else cleanLoop false path.length path.data [] 0
    if out.length = 0 then "." else String.mk out

/-- The function `path.Join`: the non-empty prefix of empty elements is skipped, the
others are joined with `/`, and the result is cleaned. -/
def Join (elem : List String) : String :=
  match elem.dropWhile (· = "") with
  | [] => ""
  | e :: es => Clean (es.foldl (fun buf x => buf ++ "/" ++ x) e)

/-! ## The filesystem and `io/ioutil` -/

/-- A Go `[]byte`. -/
abbrev Bytes := List UInt8

/-- The conversion `[]byte(s)`: the bytes of the string. -/
def bytes (s : String) : Bytes := s.toUTF8.data.toList

/-- The filesystem: the content of every file that exists, and for every path at which
the operating system refuses a write the error it reports. -/
structure FS where
  files : String → Option Bytes
  writeErr : String → Option String

/-- The function `ioutil.WriteFile`: creates or truncates the file and writes `data`. -/
def WriteFile (fs : FS) (filename : String) (data : Bytes) (_perm : Nat) : Except String FS :=
  match fs.writeErr filename with
  | some err => .error err
  | none => .ok { fs with files := fun q => if q = filename then some data else fs.files q }

/-- The function `ioutil.ReadFile`. -/
def ReadFile (fs : FS) (filename : String) : Except String Bytes :=
  match fs.files filename with
  | some data => .ok data
  | none => .error ("open " ++ filename ++ ": no such file or directory")

/-! ## `net/http` -/

/-- A wiki page. -/
structure Page where
  Title : String
  Body : Bytes
deriving DecidableEq, Repr

/-- A library call made on a response writer, with its arguments. -/
inductive Call where
  /-- The call `http.Error(w, error, code)`. -/
  | Error (error : String) (code : Nat) : Call
  /-- The call `http.Redirect(w, r, url, code)`. -/
  | Redirect (url : String) (code : Nat) : Call
  /-- The call `templates.ExecuteTemplate(w, name, data)`. -/
  | ExecuteTemplate (name : String) (data : Page) : Call
deriving DecidableEq, Repr

/-- An `http.ResponseWriter`: the calls made on it, oldest first. -/
abbrev ResponseWriter := List Call

/-- The part of an `*http.Request` the program reads: `r.URL.Path` and `r.FormValue`. -/
structure Request where
  Path : String
  FormValue : String → String

/-- The constant `http.StatusFound`. -/
def StatusFound : Nat := 302

/-- The constant `http.StatusNotFound`. -/
def StatusNotFound : Nat := 404

/-- The constant `http.StatusInternalServerError`. -/
def StatusInternalServerError : Nat := 500

/-- The function `http.Error`. -/
def Error (w : ResponseWriter) (error : String) (code : Nat) : ResponseWriter :=
  w ++ [.Error error code]

/-- The function `http.NotFound`, which is `Error(w, "404 page not found", StatusNotFound)`. -/
def NotFound (w : ResponseWriter) (_r : Request) : ResponseWriter :=
  Error w "404 page not found" StatusNotFound

/-- The function `http.Redirect`. -/
def Redirect (w : ResponseWriter) (_r : Request) (url : String) (code : Nat) : ResponseWriter :=
  w ++ [.Redirect url code]

/-- The parsed templates: `ExecuteTemplate name data` is `none` when the template runs
without error and the error otherwise. -/
structure Template where
  ExecuteTemplate : String → Page → Option String

/-- A function of the shape `func(http.ResponseWriter, *http.Request, string)`, acting on
the response writer and the filesystem. -/
abbrev TitleHandler := ResponseWriter → Request → String → FS → ResponseWriter × FS

/-- An `http.HandlerFunc`, acting on the response writer and the filesystem. -/
abbrev HandlerFunc := ResponseWriter → Request → FS → ResponseWriter × FS

/-! ## The program -/

/-- The constant `htmlPath`. -/
def htmlPath : String := "/tmp/gowiki/pages/"

/-- The function `makeHandler`. -/
def makeHandler (fn : TitleHandler) : HandlerFunc := fun w r fs =>
  match validPath.FindStringSubmatch r.Path with
  | none => (NotFound w r, fs)
  | some m => fn w r (m.getD 2 "") fs

/-- The function `renderTemplate`. -/
def renderTemplate (templates : Template) (w : ResponseWriter) (tmpl : String) (p : Page) :
    ResponseWriter :=
  let w1 := w ++ [.ExecuteTemplate (tmpl ++ ".html") p]
  match templates.ExecuteTemplate (tmpl ++ ".html") p with
  | some err => Error w1 err StatusInternalServerError
  | none => w1

/-- The method `(p *Page) save`. -/
def Page.save (p : Page) (fs : FS) : Except String FS :=
  let filename := p.Title ++ ".txt"
  let fullPath := Join [htmlPath, filename]
  WriteFile fs fullPath p.Body 0o600

/-- The function `loadPage`. -/
def loadPage (title : String) (fs : FS) : Except String Page :=
  let filename := title ++ ".txt"
  match ReadFile fs (Join [htmlPath, filename]) with
  | .error err => .error err
  | .ok body => .ok { Title := title, Body := body }

/-- The function `viewHandler`. -/
def viewHandler (templates : Template) : TitleHandler := fun w r title fs =>
  match loadPage title fs with
  | .error _ => (Redirect w r ("/edit/" ++ title) StatusFound, fs)
  | .ok p => (renderTemplate templates w "view" p, fs)

/-- The function `editHandler`. -/
def editHandler (templates : Template) : TitleHandler := fun w _r title fs =>
  let p :=
    match loadPage title fs with
    | .error _ => { Title := title, Body := [] }
    | .ok p => p
  (renderTemplate templates w "edit" p, fs)

/-- The function `saveHandler`. -/
def saveHandler : TitleHandler := fun w r title fs =>
  let body := r.FormValue "body"
  let p : Page := { Title := title, Body := bytes body }
  match p.save fs with
  | .error err => (Error w err StatusInternalServerError, fs)
  | .ok fs1 => (Redirect w r ("/view/" ++ title) StatusFound, fs1)

/-- The constant `http.StatusMovedPermanently`. -/
def StatusMovedPermanently : Nat := 301

/-- The registrations of a `ServeMux`, oldest first. The patterns of the program name no
host, and the host of the request plays no part here. -/
abbrev ServeMux := List (String × HandlerFunc)

/-- The function `http.HandleFunc`, on the mux given. -/
def HandleFunc (mux : ServeMux) (pattern : String) (handler : HandlerFunc) : ServeMux :=
  mux ++ [(pattern, handler)]

/-- The function `cleanPath` of `net/http`: the canonical form of a request path, which is
rooted, cleaned by `path.Clean`, and keeps a trailing slash. -/
def cleanPath (p : String) : String :=
  if p = "" then "/"
  else
    let p := if p.data.head? = some '/' then p else "/" ++ p
    let np := Clean p
    if p.data.getLast? = some '/' ∧ np ≠ "/" then np ++ "/" else np

/-- The handler a `ServeMux` selects for a path: the one registered under exactly this
path, else the one under the longest pattern ending in `/` that is a prefix of the path. -/
def ServeMux.handler (mux : ServeMux) (path : String) : Option (String × HandlerFunc) :=
  match mux.find? (fun e => e.1 = path) with
  | some e => some e
  | none =>
    (mux.filter fun e => e.1.data.getLast? = some '/' && e.1.data.isPrefixOf path.data).foldl
      (fun best e =>
        match best with
        | none => some e
        | some b => if b.1.length < e.1.length then some e else some b)
      none

/-- Whether a `ServeMux` redirects a path to the same path with a trailing slash: the path
is not registered, and the path followed by `/` is. -/
def ServeMux.shouldRedirect (mux : ServeMux) (path : String) : Bool :=
  if mux.any (fun e => e.1 = path) then false
  else if path = "" then false
  else if mux.any (fun e => e.1 = path ++ "/") then !(path.data.getLast? = some '/')
  else false

/-- The method `Handler` of a `ServeMux`, for a request whose method is not `CONNECT`: a
redirect with status 301 to the path with a trailing slash or to the canonical path when
the path calls for one (the query of the URL is not part of the model), else the
handler selected for the path, and without one the `NotFound` handler. -/
def ServeMux.Handler (mux : ServeMux) (r : Request) : HandlerFunc :=
  let path := cleanPath r.Path
  if mux.shouldRedirect path then
    fun w r1 fs => (Redirect w r1 (path ++ "/") StatusMovedPermanently, fs)
  else if path ≠ r.Path then
    fun w r1 fs => (Redirect w r1 path StatusMovedPermanently, fs)
  else
    match mux.handler r.Path with
    | some e => e.2
    | none => fun w r1 fs => (NotFound w r1, fs)

/-- The method `ServeHTTP` of a `ServeMux`: the handler for the request runs. -/
def ServeMux.ServeHTTP (mux : ServeMux) : HandlerFunc := fun w r fs =>
  mux.Handler r w r fs

/-- The registrations made by `main`. -/
def main (templates : Template) : ServeMux :=
  let mux := HandleFunc [] "/view/" (makeHandler (viewHandler templates))
  let mux := HandleFunc mux "/edit/" (makeHandler (editHandler templates))
  HandleFunc mux "/save/" (makeHandler saveHandler)

/-- A filesystem without files that accepts every write. -/
def emptyFS : FS := { files := fun _ => none, writeErr := fun _ => none }

/-- The page of the example in `main`. -/
def samplePage : Page := { Title := "TestPage", Body := bytes "This is a sample Page." }

/-- The filesystem that holds the page of the example in `main` and nothing else. -/
def sampleFS : FS :=
  { files := fun q => if q = "/tmp/gowiki/pages/TestPage.txt" then some samplePage.Body else none,
    writeErr := fun _ => none }

/-- The filesystem `sampleFS` after the example page is saved again with an empty body. -/
def emptiedFS : FS :=
  { files := fun q => if q = "/tmp/gowiki/pages/TestPage.txt" then some [] else sampleFS.files q,
    writeErr := fun _ => none }

/-- The filesystem `sampleFS` after a page `Other` with body `[1, 2, 3]` is saved. -/
def twoPagesFS : FS :=
  { files := fun q => if q = "/tmp/gowiki/pages/Other.txt" then some [1, 2, 3] else sampleFS.files q,
    writeErr := fun _ => none }

/-- A filesystem without files that refuses every write. -/
def readOnlyFS : FS :=
  { files := fun _ => none, writeErr := fun q => some ("open " ++ q ++ ": permission denied") }

/-! ## The matcher on `validPath` -/

theorem inClass_alnum (c : Char) :
    inClass [('a', 'z'), ('A', 'Z'), ('0', '9')] c = c.isAlphanum := by
  simp only [inClass, List.any_cons, List.any_nil, Bool.or_false, Char.isAlphanum, Char.isAlpha,
    Char.isUpper, Char.isLower, Char.isDigit]
  have hlo : ∀ lo : Char, decide (lo ≤ c) = decide (c.val ≥ lo.val) := fun lo => by
    simp [Char.le_def]
  have hhi : ∀ hi : Char, decide (c ≤ hi) = decide (c.val ≤ hi.val) := fun hi => by
    simp [Char.le_def]
  rw [hlo, hlo, hlo, hhi, hhi, hhi]
  have e1 : ('a' : Char).val = 97 := rfl
  have e2 : ('z' : Char).val = 122 := rfl
  have e3 : ('A' : Char).val = 65 := rfl
  have e4 : ('Z' : Char).val = 90 := rfl
  have e5 : ('0' : Char).val = 48 := rfl
  have e6 : ('9' : Char).val = 57 := rfl
  rw [e1, e2, e3, e4, e5, e6]
  generalize decide (c.val ≥ 97) = b1
  generalize decide (c.val ≤ 122) = b2
  generalize decide (c.val ≥ 65) = b3
  generalize decide (c.val ≤ 90) = b4
  generalize decide (c.val ≥ 48) = b5
  generalize decide (c.val ≤ 57) = b6
  cases b1 <;> cases b2 <;> cases b3 <;> cases b4 <;> cases b5 <;> cases b6 <;> rfl

/-- The bound on the iterations of `plusLoop` does not matter once it exceeds the length of
the unread text, since every further iteration consumes text. -/
theorem plusLoop_bound (f : Thread → List Thread) : ∀ (k n m : Nat) (t : Thread),
    t.rest.length ≤ k → t.rest.length < n → t.rest.length < m →
    plusLoop f n t = plusLoop f m t := by
  intro k
  induction k with
  | zero =>
    intro n m t hk hn hm
    obtain ⟨n, rfl⟩ : ∃ n1, n = n1 + 1 := ⟨n - 1, by omega⟩
    obtain ⟨m, rfl⟩ : ∃ m1, m = m1 + 1 := ⟨m - 1, by omega⟩
    have h0 : ∀ t1 : Thread, ¬t1.rest.length < t.rest.length := fun t1 => by omega
    simp only [plusLoop, h0, if_false]
  | succ k ih =>
    intro n m t hk hn hm
    obtain ⟨n, rfl⟩ : ∃ n1, n = n1 + 1 := ⟨n - 1, by omega⟩
    obtain ⟨m, rfl⟩ : ∃ m1, m = m1 + 1 := ⟨m - 1, by omega⟩
    simp only [plusLoop]
    congr 1
    funext t1
    by_cases h : t1.rest.length < t.rest.length
    · rw [if_pos h, if_pos h, ih n m t1 (by omega) (by omega) (by omega)]
    · rw [if_neg h, if_neg h]

theorem run_cls_nil (R : List (Char × Char)) (pos : Nat) (caps : List (Nat × List Char)) :
    (Regex.cls R).run ⟨pos, [], caps⟩ = [] := rfl

theorem run_cls_cons (R : List (Char × Char)) (pos : Nat) (d : Char) (ds : List Char)
    (caps : List (Nat × List Char)) :
    (Regex.cls R).run ⟨pos, d :: ds, caps⟩ =
      if inClass R d = true then [⟨pos + 1, ds, caps⟩] else [] := rfl

theorem run_eol (t : Thread) : Regex.eol.run t = if t.rest = [] then [t] else [] := by
  simp [Regex.run]

theorem plusLoop_cls_eol (R : List (Char × Char)) : ∀ (n : Nat) (t : Thread),
    t.rest.length < n →
    (plusLoop (Regex.run (.cls R)) n t).flatMap (Regex.run .eol) =
      if t.rest ≠ [] ∧ t.rest.all (inClass R) = true then
        [{ t with pos := t.pos + t.rest.length, rest := [] }]
      else [] := by
  intro n
  induction n with
  | zero => intro t h; omega
  | succ n ih =>
    rintro ⟨pos, rest, caps⟩ h
    cases rest with
    | nil => simp [plusLoop, run_cls_nil]
    | cons d ds =>
      simp only [List.length_cons] at h
      have hlt : ds.length < n := by omega
      by_cases hd : inClass R d = true
      · have := ih ⟨pos + 1, ds, caps⟩ hlt
        simp only [plusLoop, run_cls_cons, hd, if_true, List.flatMap_cons, List.flatMap_nil,
          List.append_nil, List.length_cons, Nat.lt_succ_self, List.flatMap_append, this, run_eol]
        cases ds with
        | nil => simp [hd]
        | cons e es =>
          have hp : pos + 1 + (es.length + 1) = pos + (es.length + 1 + 1) := by omega
          simp [hd, hp]
      · simp [plusLoop, run_cls_cons, hd]

theorem flatMap_eol_map_caps (l : List Thread) (f : Thread → List (Nat × List Char)) :
    (l.map fun t1 => { t1 with caps := f t1 }).flatMap (Regex.run .eol) =
      (l.flatMap (Regex.run .eol)).map fun t1 => { t1 with caps := f t1 } := by
  induction l with
  | nil => rfl
  | cons a l ih =>
    simp only [List.map_cons, List.flatMap_cons, List.map_append, ih, run_eol]
    by_cases h : a.rest = [] <;> simp [h]

theorem run_title_eol (R : List (Char × Char)) (i : Nat) (t : Thread) :
    (Regex.seq (.group i (.plus (.cls R))) .eol).run t =
      if t.rest ≠ [] ∧ t.rest.all (inClass R) = true then
        [⟨t.pos + t.rest.length, [], (i, t.rest) :: t.caps⟩]
      else [] := by
  have h1 : (Regex.seq (.group i (.plus (.cls R))) .eol).run t =
      ((plusLoop (Regex.run (.cls R)) (t.rest.length + 1) t).map fun t1 =>
        { t1 with caps := (i, t.rest.take (t1.pos - t.pos)) :: t1.caps }).flatMap
        (Regex.run .eol) := rfl
  rw [h1, flatMap_eol_map_caps, plusLoop_cls_eol R _ t (Nat.lt_succ_self _)]
  split <;> simp

theorem mem_run_lit {s : List Char} {t u : Thread} (h : u ∈ (Regex.lit s).run t) :
    t.rest = s ++ u.rest ∧ u.pos = t.pos + s.length ∧ u.caps = t.caps := by
  simp only [Regex.run] at h
  split at h
  · rename_i hp
    simp only [List.mem_singleton] at h
    subst h
    rw [List.isPrefixOf_iff_prefix, List.prefix_iff_eq_append] at hp
    exact ⟨hp.symm, rfl, rfl⟩
  · simp at h

theorem run_lit_append (s r : List Char) (pos : Nat) (caps : List (Nat × List Char)) :
    (Regex.lit s).run ⟨pos, s ++ r, caps⟩ = [⟨pos + s.length, r, caps⟩] := by
  simp [Regex.run]

theorem run_seq (a b : Regex) (t : Thread) :
    (Regex.seq a b).run t = (a.run t).flatMap b.run := rfl

theorem run_alt (a b : Regex) (t : Thread) : (Regex.alt a b).run t = a.run t ++ b.run t := rfl

theorem run_group (i : Nat) (a : Regex) (t : Thread) :
    (Regex.group i a).run t =
      (a.run t).map fun t1 => { t1 with caps := (i, t.rest.take (t1.pos - t.pos)) :: t1.caps } :=
  rfl

theorem run_bol (t : Thread) : Regex.bol.run t = if t.pos = 0 then [t] else [] := rfl

/-- Every match of `validPath` starts at offset 0 and has the form `/p/title`. -/
theorem mem_validPath_run {t u : Thread} (h : u ∈ validPath.run t) :
    t.pos = 0 ∧ ∃ p title, p ∈ ["edit".data, "save".data, "view".data] ∧
      t.rest = '/' :: (p ++ '/' :: title) ∧ title ≠ [] ∧
      (∀ c ∈ title, c.isAlphanum = true) ∧
      u = ⟨6 + title.length, [], (2, title) :: (1, p) :: t.caps⟩ := by
  unfold validPath at h
  rw [run_seq] at h; obtain ⟨t1, h1, ha⟩ := List.mem_flatMap.1 h
  rw [run_seq] at ha; obtain ⟨t2, h2, hb⟩ := List.mem_flatMap.1 ha
  rw [run_seq] at hb; obtain ⟨t3, h3, hc⟩ := List.mem_flatMap.1 hb
  rw [run_seq] at hc; obtain ⟨t4, h4, hd⟩ := List.mem_flatMap.1 hc
  clear h ha hb hc
  rename u ∈ _ => h
  rw [run_title_eol] at h
  rw [run_bol] at h1
  split at h1
  swap
  · simp at h1
  rename_i hpos
  simp only [List.mem_singleton] at h1
  subst h1
  refine ⟨hpos, ?_⟩
  obtain ⟨r2, p2, c2⟩ := mem_run_lit h2
  rw [run_group] at h3
  obtain ⟨v, hv, h3⟩ := List.mem_map.1 h3
  obtain ⟨r4, p4, c4⟩ := mem_run_lit h4
  split at h
  swap
  · simp at h
  rename_i htitle
  simp only [List.mem_singleton] at h
  have halt : ∃ p, p ∈ ["edit".data, "save".data, "view".data] ∧
      t2.rest = p ++ v.rest ∧ v.pos = t2.pos + 4 ∧ v.caps = t2.caps := by
    rw [run_alt, run_alt] at hv
    rcases List.mem_append.1 hv with hv | hv
    · exact ⟨_, by simp, mem_run_lit hv⟩
    rcases List.mem_append.1 hv with hv | hv
    · exact ⟨_, by simp, mem_run_lit hv⟩
    · exact ⟨_, by simp, mem_run_lit hv⟩
  obtain ⟨p, hp, rv, pv, cv⟩ := halt
  have hlen : p.length = 4 := by
    simp only [List.mem_cons, List.mem_singleton, List.not_mem_nil, or_false] at hp
    rcases hp with hp | hp | hp <;> subst hp <;> rfl
  subst h3
  subst h
  simp only [List.length_singleton] at p2 p4
  simp only at r4 c4
  refine ⟨p, t4.rest, hp, ?_, htitle.1, ?_, ?_⟩
  · rw [r2, rv, r4]; rfl
  · intro c hc
    have := List.all_eq_true.1 htitle.2 c hc
    rwa [inClass_alnum] at this
  · have e1 : t4.pos = 6 := by omega
    have e2 : v.pos - t2.pos = p.length := by omega
    rw [e1, c4, cv, c2, e2, rv]
    simp

/-- On `/p/title` with `p` one of the three words and `title` a non-empty run of letters
and digits, `validPath` has exactly one match, which records `p` and `title`. -/
theorem validPath_run_accept (p title : List Char)
    (hp : p ∈ ["edit".data, "save".data, "view".data]) (hne : title ≠ [])
    (hal : ∀ c ∈ title, c.isAlphanum = true) :
    validPath.run ⟨0, '/' :: (p ++ '/' :: title), []⟩ =
      [⟨6 + title.length, [], [(2, title), (1, p)]⟩] := by
  have hall : title.all (inClass [('a', 'z'), ('A', 'Z'), ('0', '9')]) = true := by
    rw [List.all_eq_true]
    intro c hc
    rw [inClass_alnum]
    exact hal c hc
  have e1 : "edit".data = ['e', 'd', 'i', 't'] := rfl
  have e2 : "save".data = ['s', 'a', 'v', 'e'] := rfl
  have e3 : "view".data = ['v', 'i', 'e', 'w'] := rfl
  unfold validPath
  generalize hT : (Regex.seq (.group 2 (.plus (.cls [('a', 'z'), ('A', 'Z'), ('0', '9')]))) .eol)
    = T
  have hrun : T.run ⟨6, title, [(1, p)]⟩ = [⟨6 + title.length, [], [(2, title), (1, p)]⟩] := by
    subst hT
    rw [run_title_eol]
    simp [hne, hall]
  simp only [List.mem_cons, List.mem_singleton, List.not_mem_nil, or_false] at hp
  rcases hp with hp | hp | hp <;> subst hp <;> rw [e1, e2, e3] at * <;>
    simp [Regex.run, hrun]

theorem validPath_run_pos (pos : Nat) (rest : List Char) (caps : List (Nat × List Char))
    (h : pos ≠ 0) : validPath.run ⟨pos, rest, caps⟩ = [] := by
  rw [List.eq_nil_iff_forall_not_mem]
  intro u hu
  exact h (mem_validPath_run hu).1

theorem validPath_search_pos : ∀ (rest : List Char) (pos : Nat), pos ≠ 0 →
    validPath.search pos rest = none := by
  intro rest
  induction rest with
  | nil => intro pos h; simp [Regex.search, validPath_run_pos pos [] [] h]
  | cons c cs ih =>
    intro pos h
    rw [Regex.search, validPath_run_pos pos _ _ h]
    exact ih (pos + 1) (by omega)

/-- The leftmost match of `validPath` is its preferred match at offset 0. -/
theorem validPath_search (cs : List Char) :
    validPath.search 0 cs = (validPath.run ⟨0, cs, []⟩).head?.map fun t => (cs, 0, t) := by
  cases cs with
  | nil => rfl
  | cons c cs =>
    rw [Regex.search]
    cases h : validPath.run ⟨0, c :: cs, []⟩ with
    | nil => simp [validPath_search_pos cs 1 (by omega)]
    | cons t ts => rfl

theorem validPath_numSubexp : validPath.numSubexp = 2 := rfl

theorem words_data {p : String} (hp : p ∈ ["edit", "save", "view"]) :
    p.data ∈ ["edit".data, "save".data, "view".data] ∧ p.data.length = 4 := by
  simp only [List.mem_cons, List.mem_singleton, List.not_mem_nil, or_false] at hp
  rcases hp with hp | hp | hp <;> subst hp <;> exact ⟨by simp, rfl⟩

/-- The submatches of `validPath` on an accepted path. -/
theorem FindStringSubmatch_accept (p t : String) (hp : p ∈ ["edit", "save", "view"])
    (hne : t ≠ "") (hal : ∀ c ∈ t.data, c.isAlphanum = true) :
    validPath.FindStringSubmatch ("/" ++ p ++ "/" ++ t) = some ["/" ++ p ++ "/" ++ t, p, t] := by
  obtain ⟨hp1, hp2⟩ := words_data hp
  have hne1 : t.data ≠ [] := fun h => hne (String.ext h)
  have hd : ("/" ++ p ++ "/" ++ t).data = '/' :: (p.data ++ '/' :: t.data) := by
    simp [String.data_append]
  have hrun := validPath_run_accept p.data t.data hp1 hne1 hal
  unfold Regex.FindStringSubmatch
  rw [hd, validPath_search, hrun, validPath_numSubexp]
  have hs : "/" ++ p ++ "/" ++ t = String.mk ('/' :: (p.data ++ '/' :: t.data)) :=
    String.ext hd
  rw [hs]
  have hlen : ('/' :: (p.data ++ '/' :: t.data)).length ≤ 6 + t.length := by
    simp [hp2]; omega
  simp [Thread.cap, List.lookup, List.range_succ, List.take_of_length_le hlen]

/-- Only paths of the form `/p/title` have a match, and the submatches are the path,
`p` and `title`. -/
theorem FindStringSubmatch_some {s : String} {m : List String}
    (h : validPath.FindStringSubmatch s = some m) :
    ∃ p t, p ∈ ["edit", "save", "view"] ∧ t ≠ "" ∧ (∀ c ∈ t.data, c.isAlphanum = true) ∧
      s = "/" ++ p ++ "/" ++ t ∧ m = [s, p, t] := by
  unfold Regex.FindStringSubmatch at h
  rw [validPath_search] at h
  cases hr : validPath.run ⟨0, s.data, []⟩ with
  | nil => rw [hr] at h; simp at h
  | cons u us =>
    have hu : u ∈ validPath.run ⟨0, s.data, []⟩ := by rw [hr]; simp
    obtain ⟨_, p, title, hp, hs, hne, hal, _⟩ := mem_validPath_run hu
    have hp1 : String.mk p ∈ ["edit", "save", "view"] := by
      simp only [List.mem_cons, List.mem_singleton, List.not_mem_nil, or_false] at hp ⊢
      rcases hp with hp | hp | hp <;> subst hp <;> simp
    have hne1 : String.mk title ≠ "" := fun e => hne (congrArg String.data e)
    have hs1 : s = "/" ++ String.mk p ++ "/" ++ String.mk title := by
      apply String.ext
      simp only at hs
      rw [hs]
      simp [String.data_append]
    refine ⟨String.mk p, String.mk title, hp1, hne1, hal, hs1, ?_⟩
    have := FindStringSubmatch_accept _ _ hp1 hne1 hal
    rw [← hs1] at this
    unfold Regex.FindStringSubmatch at this
    rw [validPath_search] at this
    rw [this] at h
    exact (Option.some.inj h).symm

/-! ## `path.Join` on the pages directory -/

theorem takeWhile_ne_slash {e : List Char} (h : '/' ∉ e) (r : List Char) :
    (e ++ '/' :: r).takeWhile (· ≠ '/') = e ∧ (e ++ '/' :: r).dropWhile (· ≠ '/') = '/' :: r ∧
    e.takeWhile (· ≠ '/') = e ∧ e.dropWhile (· ≠ '/') = [] := by
  induction e with
  | nil => simp
  | cons c cs ih =>
    have hc : c ≠ '/' := fun hc => h (by simp [hc])
    have hcs : '/' ∉ cs := fun hcs => h (by simp [hcs])
    obtain ⟨h1, h2, h3, h4⟩ := ih hcs
    have hdc : decide (c ≠ '/') = true := by simp [hc]
    simp only [List.cons_append, List.takeWhile_cons, List.dropWhile_cons, hdc, if_true, h1, h2,
      h3, h4, and_self]

theorem cleanLoop_nil (rooted : Bool) (n : Nat) (out : List Char) (dotdot : Nat) :
    cleanLoop rooted n [] out dotdot = out := by
  cases n <;> rfl

/-- The bound on the iterations of the loop of `Clean` does not matter once it is at least
the length of the unread text: the loop ends by reading all of it. -/
theorem cleanLoop_bound (rooted : Bool) : ∀ (k n m : Nat) (rest out : List Char) (dotdot : Nat),
    rest.length ≤ k → rest.length ≤ n → rest.length ≤ m →
    cleanLoop rooted n rest out dotdot = cleanLoop rooted m rest out dotdot := by
  intro k
  induction k with
  | zero =>
    intro n m rest out dotdot hk _ _
    have : rest = [] := List.length_eq_zero.1 (by omega)
    subst this
    rw [cleanLoop_nil, cleanLoop_nil]
  | succ k ih =>
    intro n m rest out dotdot hk hn hm
    cases rest with
    | nil => rw [cleanLoop_nil, cleanLoop_nil]
    | cons c rs =>
      simp only [List.length_cons] at hk hn hm
      obtain ⟨n, rfl⟩ : ∃ n1, n = n1 + 1 := ⟨n - 1, by omega⟩
      obtain ⟨m, rfl⟩ : ∃ m1, m = m1 + 1 := ⟨m - 1, by omega⟩
      have htail : rs.tail.length ≤ rs.length := by simp
      rw [cleanLoop, cleanLoop]
      by_cases hc : c = '/'
      · rw [if_pos hc, if_pos hc]
        exact ih _ _ _ _ _ (by omega) (by omega) (by omega)
      · have hdrop : ((c :: rs).dropWhile (· ≠ '/')).length ≤ rs.length := by
          have hs := (List.dropWhile_sublist (l := rs) (· ≠ '/')).length_le
          simpa [List.dropWhile_cons, hc] using hs
        rw [if_neg hc, if_neg hc]
        simp only []
        split_ifs
        all_goals exact ih _ _ _ _ _ (by omega) (by omega) (by omega)

/-- A last path element without `/` and of length at least 3 is copied as it is. -/
theorem cleanLoop_last (n : Nat) (e out : List Char) (dotdot : Nat) (hlen : 3 ≤ e.length)
    (hns : '/' ∉ e) (hout : out.length ≠ 1) :
    cleanLoop true (n + 1) e out dotdot = out ++ '/' :: e := by
  obtain ⟨_, _, h3, h4⟩ := takeWhile_ne_slash hns []
  match e, hlen, hns, h3, h4 with
  | c :: d :: f :: rs, _, hns, h3, h4 =>
    have hc : c ≠ '/' := fun hc => hns (by simp [hc])
    have hd : d ≠ '/' := fun hd => hns (by simp [hd])
    have hf : f ≠ '/' := fun hf => hns (by simp [hf])
    rw [cleanLoop]
    rw [h3, h4]
    have hn2 : ¬(c = '.' ∧ (d :: f :: rs = [] ∨ (d :: f :: rs).head? = some '/')) := by
      simp [hd]
    have hn3 : ¬(c = '.' ∧ (d :: f :: rs).head? = some '.' ∧
        ((d :: f :: rs).tail = [] ∨ (d :: f :: rs).tail.head? = some '/')) := by
      simp [hf]
    rw [if_neg hc, if_neg hn2, if_neg hn3]
    simp [cleanLoop_nil, hout]

/-- The loop of `Clean` on the pages directory followed by one more element. -/
theorem cleanLoop_pages (n : Nat) (e : List Char) (hlen : 3 ≤ e.length) (hns : '/' ∉ e) :
    cleanLoop true (n + 8) ("tmp/gowiki/pages//".data ++ e) ['/'] 1 =
      "/tmp/gowiki/pages/".data ++ e := by
  have e1 : "tmp/gowiki/pages//".data = ['t', 'm', 'p', '/', 'g', 'o', 'w', 'i', 'k', 'i', '/',
    'p', 'a', 'g', 'e', 's', '/', '/'] := rfl
  have e2 : "/tmp/gowiki/pages/".data = ['/', 't', 'm', 'p', '/', 'g', 'o', 'w', 'i', 'k', 'i', '/',
    'p', 'a', 'g', 'e', 's', '/'] := rfl
  rw [e1, e2]
  simp only [List.cons_append, List.nil_append]
  simp [cleanLoop, List.takeWhile_cons, List.dropWhile_cons]
  rw [cleanLoop_last n e _ 1 hlen hns (by simp)]
  simp

/-- Joining the pages directory with a file name without `/` of length at least 3 appends
the name to the directory. -/
theorem Join_htmlPath (name : String) (hlen : 3 ≤ name.length) (hns : '/' ∉ name.data) :
    Join [htmlPath, name] = htmlPath ++ name := by
  have hj : Join [htmlPath, name] = Clean (htmlPath ++ "/" ++ name) := by
    simp [Join, htmlPath, List.dropWhile_cons]
  have hd : (htmlPath ++ "/" ++ name).data = '/' :: ("tmp/gowiki/pages//".data ++ name.data) := by
    simp [String.data_append, htmlPath]
  have hne : htmlPath ++ "/" ++ name ≠ "" := by
    intro h
    have := congrArg String.data h
    rw [hd] at this
    simp at this
  have hl : (htmlPath ++ "/" ++ name).length = name.data.length + 11 + 8 := by
    show (htmlPath ++ "/" ++ name).data.length = _
    rw [hd]
    simp
  rw [hj]
  unfold Clean
  rw [if_neg hne]
  simp only [hd, hl, List.head?_cons, List.tail_cons, if_true]
  rw [cleanLoop_pages _ _ hlen hns]
  apply String.ext
  simp [String.data_append, htmlPath]

/-- The file of a title without `/` is the pages directory followed by the title and
`.txt`. -/
theorem Join_title (title : String) (hns : '/' ∉ title.data) :
    Join [htmlPath, title ++ ".txt"] = htmlPath ++ title ++ ".txt" := by
  rw [Join_htmlPath, String.append_assoc]
  · simp [String.length_append]
    show 3 ≤ title.length + 4
    omega
  · simp [String.data_append, hns]

theorem alnum_ne_slash {title : String} (hal : ∀ c ∈ title.data, c.isAlphanum = true) :
    '/' ∉ title.data := fun h => absurd (hal _ h) (by decide)

/-! ## The page store -/

/-- The file that `save` writes and `loadPage` reads for a title. -/
theorem save_ok_iff (p : Page) (fs fs1 : FS) :
    p.save fs = .ok fs1 ↔
      fs.writeErr (Join [htmlPath, p.Title ++ ".txt"]) = none ∧
      fs1 = { fs with files := fun q =>
        if q = (Join [htmlPath, p.Title ++ ".txt"]) then some p.Body else fs.files q } := by
  simp only [Page.save, WriteFile]
  cases h : fs.writeErr (Join [htmlPath, p.Title ++ ".txt"]) with
  | none =>
    simp only [true_and]
    constructor
    · intro e; injection e with e; exact e.symm
    · intro e; rw [e]
  | some err => simp

theorem save_error_iff (p : Page) (fs : FS) (err : String) :
    p.save fs = .error err ↔ fs.writeErr (Join [htmlPath, p.Title ++ ".txt"]) = some err := by
  simp only [Page.save, WriteFile]
  cases h : fs.writeErr (Join [htmlPath, p.Title ++ ".txt"]) with
  | none => simp
  | some e =>
    simp only [Option.some.injEq]
    constructor
    · intro e1; injection e1
    · intro e1; rw [e1]

theorem loadPage_eq (title : String) (fs : FS) :
    loadPage title fs =
      match fs.files (Join [htmlPath, title ++ ".txt"]) with
      | some body => .ok ⟨title, body⟩
      | none => .error ("open " ++ Join [htmlPath, title ++ ".txt"] ++
          ": no such file or directory") := by
  simp only [loadPage, ReadFile]
  cases fs.files (Join [htmlPath, title ++ ".txt"]) <;> rfl

theorem loadPage_after_save (p : Page) (fs fs1 : FS) (h : p.save fs = .ok fs1) :
    loadPage p.Title fs1 = .ok ⟨p.Title, p.Body⟩ := by
  obtain ⟨_, h1⟩ := (save_ok_iff p fs fs1).1 h
  rw [loadPage_eq, h1]
  simp

/-- Distinct titles without `/` are stored in distinct files. -/
theorem Join_title_injective {T U : String} (hT : '/' ∉ T.data) (hU : '/' ∉ U.data)
    (h : Join [htmlPath, T ++ ".txt"] = Join [htmlPath, U ++ ".txt"]) : T = U := by
  rw [Join_title T hT, Join_title U hU] at h
  have hd := congrArg String.data h
  simp only [String.data_append, List.append_assoc] at hd
  have h1 := List.append_cancel_left hd
  exact String.ext (List.append_cancel_right h1)

theorem sample_save : samplePage.save emptyFS = .ok sampleFS := by
  rw [save_ok_iff]
  refine ⟨rfl, ?_⟩
  have hj : Join [htmlPath, samplePage.Title ++ ".txt"] = "/tmp/gowiki/pages/TestPage.txt" := by
    decide
  rw [hj]
  rfl

/-- C1: on a filesystem that is a map from path to bytes, when saving the page with title
`T` and body `B` returns no error, loading `T` right after returns no error and the page
with title `T` and body exactly `B`. -/
theorem save_then_loadPage (T : String) (B : Bytes) (fs fs1 : FS)
    (h : (Page.mk T B).save fs = .ok fs1) : loadPage T fs1 = .ok { Title := T, Body := B } :=
  loadPage_after_save ⟨T, B⟩ fs fs1 h

theorem save_then_loadPage_witness :
    (Page.mk "TestPage" (bytes "This is a sample Page.")).save emptyFS = .ok sampleFS ∧
    loadPage "TestPage" sampleFS =
      .ok { Title := "TestPage", Body := bytes "This is a sample Page." } :=
  ⟨sample_save, save_then_loadPage "TestPage" (bytes "This is a sample Page.") emptyFS sampleFS
    sample_save⟩

theorem emptied_save : (Page.mk "TestPage" []).save sampleFS = .ok emptiedFS := by
  rw [save_ok_iff]
  refine ⟨rfl, ?_⟩
  have hj : Join [htmlPath, (Page.mk "TestPage" []).Title ++ ".txt"] =
      "/tmp/gowiki/pages/TestPage.txt" := by decide
  rw [hj]
  rfl

theorem other_save : (Page.mk "Other" [1, 2, 3]).save sampleFS = .ok twoPagesFS := by
  rw [save_ok_iff]
  refine ⟨rfl, ?_⟩
  have hj : Join [htmlPath, (Page.mk "Other" [1, 2, 3]).Title ++ ".txt"] =
      "/tmp/gowiki/pages/Other.txt" := by decide
  rw [hj]
  rfl

/-- C5: on a filesystem that is a map from path to bytes, when a save of `(T, B1)` and then
a save of `(T, B2)` both succeed, loading `T` afterwards returns the page whose body is
exactly `B2`, whatever the lengths of `B1` and `B2`. -/
theorem save_overwrites (T : String) (B1 B2 : Bytes) (fs fs1 fs2 : FS)
    (h1 : (Page.mk T B1).save fs = .ok fs1) (h2 : (Page.mk T B2).save fs1 = .ok fs2) :
    loadPage T fs2 = .ok { Title := T, Body := B2 } ∧
    fs2.files (Join [htmlPath, T ++ ".txt"]) = some B2 := by
  have _ := h1
  refine ⟨loadPage_after_save ⟨T, B2⟩ fs1 fs2 h2, ?_⟩
  rw [((save_ok_iff ⟨T, B2⟩ fs1 fs2).1 h2).2]
  simp

theorem save_overwrites_witness :
    ((Page.mk "TestPage" (bytes "This is a sample Page.")).save emptyFS = .ok sampleFS ∧
      (Page.mk "TestPage" []).save sampleFS = .ok emptiedFS) ∧
    loadPage "TestPage" emptiedFS = .ok { Title := "TestPage", Body := [] } ∧
    emptiedFS.files (Join [htmlPath, "TestPage" ++ ".txt"]) = some [] :=
  ⟨⟨sample_save, emptied_save⟩,
    save_overwrites "TestPage" (bytes "This is a sample Page.") [] emptyFS sampleFS emptiedFS
      sample_save emptied_save⟩

/-- C10: for titles `T ≠ U` that are non-empty strings of ASCII letters and digits, on a
filesystem that is a map from path to bytes, the two titles are stored under different
paths, a save of `(T, B)` changes no file other than the one of `T`, and `loadPage U` gives
the same result (error or page) after the save of `(T, B)`, succeeded or failed, as
before it. -/
theorem save_other_unchanged (T U : String) (B : Bytes) (fs : FS)
    (hT : T ≠ "" ∧ ∀ c ∈ T.data, c.isAlphanum = true)
    (hU : U ≠ "" ∧ ∀ c ∈ U.data, c.isAlphanum = true) (hne : T ≠ U) :
    Join [htmlPath, T ++ ".txt"] ≠ Join [htmlPath, U ++ ".txt"] ∧
    (∀ fs1, (Page.mk T B).save fs = .ok fs1 →
      (∀ q, q ≠ Join [htmlPath, T ++ ".txt"] → fs1.files q = fs.files q) ∧
      loadPage U fs1 = loadPage U fs) ∧
    loadPage U (match (Page.mk T B).save fs with
      | .ok fs1 => fs1
      | .error _ => fs) = loadPage U fs := by
  have hpath : Join [htmlPath, T ++ ".txt"] ≠ Join [htmlPath, U ++ ".txt"] := fun h =>
    hne (Join_title_injective (alnum_ne_slash hT.2) (alnum_ne_slash hU.2) h)
  have hok : ∀ fs1, (Page.mk T B).save fs = .ok fs1 →
      (∀ q, q ≠ Join [htmlPath, T ++ ".txt"] → fs1.files q = fs.files q) ∧
      loadPage U fs1 = loadPage U fs := by
    intro fs1 h
    obtain ⟨_, h1⟩ := (save_ok_iff ⟨T, B⟩ fs fs1).1 h
    have hfiles : ∀ q, q ≠ Join [htmlPath, T ++ ".txt"] → fs1.files q = fs.files q := by
      intro q hq
      rw [h1]
      simp [hq]
    refine ⟨hfiles, ?_⟩
    rw [loadPage_eq, loadPage_eq, hfiles _ (Ne.symm hpath)]
  refine ⟨hpath, hok, ?_⟩
  cases h : (Page.mk T B).save fs with
  | error e => rfl
  | ok fs1 => exact (hok fs1 h).2

theorem save_other_unchanged_witness :
    (("Other" ≠ "" ∧ ∀ c ∈ "Other".data, c.isAlphanum = true) ∧
      ("TestPage" ≠ "" ∧ ∀ c ∈ "TestPage".data, c.isAlphanum = true) ∧ "Other" ≠ "TestPage") ∧
    (Page.mk "Other" [1, 2, 3]).save sampleFS = .ok twoPagesFS ∧
    loadPage "TestPage" twoPagesFS = loadPage "TestPage" sampleFS :=
  ⟨⟨by decide, by decide, by decide⟩, other_save,
    ((save_other_unchanged "Other" "TestPage" [1, 2, 3] sampleFS (by decide) (by decide)
      (by decide)).2.1 twoPagesFS other_save).2⟩

/-! ## The router -/

theorem makeHandler_match (fn : TitleHandler) (w : ResponseWriter) (r : Request) (fs : FS)
    {m : List String} (h : validPath.FindStringSubmatch r.Path = some m) :
    makeHandler fn w r fs = fn w r (m.getD 2 "") fs := by
  simp only [makeHandler, h]

theorem makeHandler_nomatch (fn : TitleHandler) (w : ResponseWriter) (r : Request) (fs : FS)
    (h : validPath.FindStringSubmatch r.Path = none) :
    makeHandler fn w r fs = (NotFound w r, fs) := by
  simp only [makeHandler, h]

theorem pattern_to_word {q : String} (hq : q ∈ ["/edit/", "/save/", "/view/"]) (t : String) :
    ∃ p, p ∈ ["edit", "save", "view"] ∧ q ++ t = "/" ++ p ++ "/" ++ t := by
  simp only [List.mem_cons, List.mem_singleton, List.not_mem_nil, or_false] at hq
  rcases hq with hq | hq | hq <;> subst hq
  · exact ⟨"edit", by simp, by cases t; rfl⟩
  · exact ⟨"save", by simp, by cases t; rfl⟩
  · exact ⟨"view", by simp, by cases t; rfl⟩

theorem word_to_pattern {p : String} (hp : p ∈ ["edit", "save", "view"]) (t : String) :
    ∃ q, q ∈ ["/edit/", "/save/", "/view/"] ∧ "/" ++ p ++ "/" ++ t = q ++ t := by
  simp only [List.mem_cons, List.mem_singleton, List.not_mem_nil, or_false] at hp
  rcases hp with hp | hp | hp <;> subst hp
  · exact ⟨"/edit/", by simp, by cases t; rfl⟩
  · exact ⟨"/save/", by simp, by cases t; rfl⟩
  · exact ⟨"/view/", by simp, by cases t; rfl⟩

theorem pattern_length {q : String} (hq : q ∈ ["/edit/", "/save/", "/view/"]) :
    q.data.length = 6 := by
  simp only [List.mem_cons, List.mem_singleton, List.not_mem_nil, or_false] at hq
  rcases hq with hq | hq | hq <;> subst hq <;> rfl

/-- A path has at most one reading as one of the three prefixes followed by a title. -/
theorem title_segment_unique {q q1 t t1 : String} (hq : q ∈ ["/edit/", "/save/", "/view/"])
    (hq1 : q1 ∈ ["/edit/", "/save/", "/view/"]) (h : q ++ t = q1 ++ t1) : t = t1 := by
  have hd := congrArg String.data h
  simp only [String.data_append] at hd
  have hlen : q.data.length = q1.data.length := by
    rw [pattern_length hq, pattern_length hq1]
  exact String.ext (List.append_inj hd hlen).2

/-- C2: for every request path that is not one of `/edit/`, `/save/`, `/view/` followed by
a non-empty string of ASCII letters and digits, the pattern has no match and the handler
built by `makeHandler fn` makes the not-found reply and nothing else: its result is that of
`http.NotFound` on the writer and the unchanged filesystem, whatever `fn` is, so `fn` is
not invoked. In particular this is so for a path made of one of the three prefixes and a
title segment that is empty or has a character that is not an ASCII letter or digit. -/
theorem makeHandler_rejects (fn : TitleHandler) (w : ResponseWriter) (r : Request) (fs : FS) :
    ((¬∃ q t, q ∈ ["/edit/", "/save/", "/view/"] ∧ t ≠ "" ∧
        (∀ c ∈ t.data, c.isAlphanum = true) ∧ r.Path = q ++ t) →
      validPath.FindStringSubmatch r.Path = none ∧
      makeHandler fn w r fs = (w ++ [.Error "404 page not found" 404], fs)) ∧
    (∀ q t, q ∈ ["/edit/", "/save/", "/view/"] → r.Path = q ++ t →
      (t = "" ∨ ∃ c ∈ t.data, c.isAlphanum = false) →
      validPath.FindStringSubmatch r.Path = none ∧
      makeHandler fn w r fs = (w ++ [.Error "404 page not found" 404], fs)) := by
  have hgen : (¬∃ q t, q ∈ ["/edit/", "/save/", "/view/"] ∧ t ≠ "" ∧
        (∀ c ∈ t.data, c.isAlphanum = true) ∧ r.Path = q ++ t) →
      validPath.FindStringSubmatch r.Path = none ∧
      makeHandler fn w r fs = (w ++ [.Error "404 page not found" 404], fs) := by
    intro h
    have hnone : validPath.FindStringSubmatch r.Path = none := by
      cases hm : validPath.FindStringSubmatch r.Path with
      | none => rfl
      | some m =>
        exfalso
        obtain ⟨p, t, hp, hne, hal, hs, _⟩ := FindStringSubmatch_some hm
        obtain ⟨q, hq, hqt⟩ := word_to_pattern hp t
        exact h ⟨q, t, hq, hne, hal, hs.trans hqt⟩
    exact ⟨hnone, makeHandler_nomatch fn w r fs hnone⟩
  refine ⟨hgen, ?_⟩
  intro q t hq hpath hbad
  apply hgen
  rintro ⟨q1, t1, hq1, hne1, hal1, hpath1⟩
  have ht : t = t1 := title_segment_unique hq hq1 (hpath.symm.trans hpath1)
  subst ht
  rcases hbad with hbad | ⟨c, hc, hbad⟩
  · exact hne1 hbad
  · rw [hal1 c hc] at hbad
    exact Bool.noConfusion hbad

/-- C4: for every prefix `q` among `/edit/`, `/save/`, `/view/` and every non-empty string
`t` of ASCII letters and digits, on the request path `q ++ t` the pattern matches with
second subexpression `t`, and the handler built by `makeHandler fn` is exactly one call of
`fn` with title `t` on the writer and filesystem it was given: no not-found reply is made
before it. -/
theorem makeHandler_accepts (fn : TitleHandler) (w : ResponseWriter) (r : Request) (fs : FS)
    (q t : String) (hq : q ∈ ["/edit/", "/save/", "/view/"]) (hne : t ≠ "")
    (hal : ∀ c ∈ t.data, c.isAlphanum = true) (hpath : r.Path = q ++ t) :
    (validPath.FindStringSubmatch r.Path).map (fun m => m.getD 2 "") = some t ∧
    makeHandler fn w r fs = fn w r t fs := by
  obtain ⟨p, hp, hqt⟩ := pattern_to_word hq t
  have hm := FindStringSubmatch_accept p t hp hne hal
  rw [← hqt, ← hpath] at hm
  refine ⟨by rw [hm]; rfl, ?_⟩
  rw [makeHandler_match fn w r fs hm]
  rfl

theorem not_accepted_of_none {s : String} (h : validPath.FindStringSubmatch s = none) :
    ¬∃ q t, q ∈ ["/edit/", "/save/", "/view/"] ∧ t ≠ "" ∧
      (∀ c ∈ t.data, c.isAlphanum = true) ∧ s = q ++ t := by
  rintro ⟨q, t, hq, hne, hal, hs⟩
  obtain ⟨p, hp, hqt⟩ := pattern_to_word hq t
  have hm := FindStringSubmatch_accept p t hp hne hal
  rw [← hqt, ← hs, h] at hm
  exact Option.noConfusion hm

theorem makeHandler_rejects_witness :
    (¬∃ q t, q ∈ ["/edit/", "/save/", "/view/"] ∧ t ≠ "" ∧
      (∀ c ∈ t.data, c.isAlphanum = true) ∧
      (Request.mk "/save/../../etc/passwd" fun _ => "x").Path = q ++ t) ∧
    validPath.FindStringSubmatch (Request.mk "/save/../../etc/passwd" fun _ => "x").Path = none ∧
    makeHandler saveHandler [] (Request.mk "/save/../../etc/passwd" fun _ => "x") emptyFS =
      ([] ++ [.Error "404 page not found" 404], emptyFS) :=
  ⟨not_accepted_of_none (by decide),
    (makeHandler_rejects saveHandler [] (Request.mk "/save/../../etc/passwd" fun _ => "x")
      emptyFS).1 (not_accepted_of_none (by decide))⟩

/-- Sample paths the pattern rejects: a title with `/`, with `.`, the title `..`, a trailing
newline, a letter outside ASCII, an empty title, an unknown prefix, text before the
prefix. -/
theorem validPath_rejects_samples :
    ∀ s ∈ ["/view/a/b", "/view/a.b", "/edit/..", "/view/Page\n", "/view/caf\u00e9", "/view/",
      "/delete/Page", "x/view/Page", "/view", "", "/save/a b", "/VIEW/Page"],
      validPath.FindStringSubmatch s = none := by
  decide

theorem makeHandler_accepts_witness :
    ("/view/" ∈ ["/edit/", "/save/", "/view/"] ∧ "TestPage" ≠ "" ∧
      (∀ c ∈ "TestPage".data, c.isAlphanum = true) ∧
      (Request.mk "/view/TestPage" fun _ => "").Path = "/view/" ++ "TestPage") ∧
    (validPath.FindStringSubmatch (Request.mk "/view/TestPage" fun _ => "").Path).map
      (fun m => m.getD 2 "") = some "TestPage" ∧
    makeHandler (viewHandler ⟨fun _ _ => none⟩) []
        (Request.mk "/view/TestPage" fun _ => "") sampleFS =
      viewHandler ⟨fun _ _ => none⟩ [] (Request.mk "/view/TestPage" fun _ => "") "TestPage"
        sampleFS :=
  ⟨⟨by decide, by decide, by decide, by decide⟩,
    makeHandler_accepts (viewHandler ⟨fun _ _ => none⟩) []
      (Request.mk "/view/TestPage" fun _ => "") sampleFS
      "/view/" "TestPage" (by decide) (by decide) (by decide) (by decide)⟩

/-! ## The handlers -/

theorem renderTemplate_eq (templates : Template) (w : ResponseWriter) (tmpl : String)
    (p : Page) :
    renderTemplate templates w tmpl p =
      w ++ .ExecuteTemplate (tmpl ++ ".html") p ::
        match templates.ExecuteTemplate (tmpl ++ ".html") p with
        | some err => [.Error err 500]
        | none => [] := by
  unfold renderTemplate Error
  cases templates.ExecuteTemplate (tmpl ++ ".html") p <;> simp [StatusInternalServerError]

theorem loadPage_congr (title : String) (fs fs1 : FS)
    (h : fs1.files (Join [htmlPath, title ++ ".txt"]) =
      fs.files (Join [htmlPath, title ++ ".txt"])) :
    loadPage title fs1 = loadPage title fs := by
  rw [loadPage_eq, loadPage_eq, h]

theorem viewHandler_fs (templates : Template) (w : ResponseWriter) (r : Request)
    (title : String) (fs : FS) : (viewHandler templates w r title fs).2 = fs := by
  unfold viewHandler
  cases loadPage title fs <;> rfl

theorem editHandler_fs (templates : Template) (w : ResponseWriter) (r : Request)
    (title : String) (fs : FS) : (editHandler templates w r title fs).2 = fs := rfl

theorem saveHandler_eq (w : ResponseWriter) (r : Request) (title : String) (fs : FS) :
    saveHandler w r title fs =
      match (Page.mk title (bytes (r.FormValue "body"))).save fs with
      | .error err => (Error w err StatusInternalServerError, fs)
      | .ok fs1 => (Redirect w r ("/view/" ++ title) StatusFound, fs1) := rfl

theorem saveHandler_files (w : ResponseWriter) (r : Request) (title : String) (fs : FS)
    (q : String) (hq : q ≠ Join [htmlPath, title ++ ".txt"]) :
    (saveHandler w r title fs).2.files q = fs.files q := by
  rw [saveHandler_eq]
  cases h : (Page.mk title (bytes (r.FormValue "body"))).save fs with
  | error e => rfl
  | ok fs1 =>
    simp only
    rw [((save_ok_iff _ fs fs1).1 h).2]
    simp [hq]

theorem viewHandler_congr (templates : Template) (w : ResponseWriter) (r : Request)
    (title : String) (fs fs1 : FS)
    (h : fs1.files (Join [htmlPath, title ++ ".txt"]) =
      fs.files (Join [htmlPath, title ++ ".txt"])) :
    (viewHandler templates w r title fs1).1 = (viewHandler templates w r title fs).1 := by
  unfold viewHandler
  rw [loadPage_congr title fs fs1 h]
  cases loadPage title fs <;> rfl

theorem editHandler_congr (templates : Template) (w : ResponseWriter) (r : Request)
    (title : String) (fs fs1 : FS)
    (h : fs1.files (Join [htmlPath, title ++ ".txt"]) =
      fs.files (Join [htmlPath, title ++ ".txt"])) :
    (editHandler templates w r title fs1).1 = (editHandler templates w r title fs).1 := by
  unfold editHandler
  rw [loadPage_congr title fs fs1 h]

theorem saveHandler_congr (w : ResponseWriter) (r : Request) (title : String) (fs fs1 : FS)
    (h : fs1.writeErr (Join [htmlPath, title ++ ".txt"]) =
      fs.writeErr (Join [htmlPath, title ++ ".txt"])) :
    (saveHandler w r title fs1).1 = (saveHandler w r title fs).1 := by
  simp only [saveHandler, Page.save, WriteFile, h]
  cases fs.writeErr (Join [htmlPath, title ++ ".txt"]) <;> rfl

theorem saveHandler_file_at (w : ResponseWriter) (r : Request) (title : String) (fs : FS) :
    (saveHandler w r title fs).2.files (Join [htmlPath, title ++ ".txt"]) =
      match fs.writeErr (Join [htmlPath, title ++ ".txt"]) with
      | none => some (bytes (r.FormValue "body"))
      | some _ => fs.files (Join [htmlPath, title ++ ".txt"]) := by
  simp only [saveHandler, Page.save, WriteFile]
  cases fs.writeErr (Join [htmlPath, title ++ ".txt"]) <;> simp

theorem saveHandler_writeErr (w : ResponseWriter) (r : Request) (title : String) (fs : FS) :
    (saveHandler w r title fs).2.writeErr = fs.writeErr := by
  simp only [saveHandler, Page.save, WriteFile]
  cases fs.writeErr (Join [htmlPath, title ++ ".txt"]) <;> rfl

/-- C3: for every request path accepted by `validPath`, with `title` its second
subexpression, the file named by `path.Join(htmlPath, title + ".txt")` is exactly
`/tmp/gowiki/pages/` followed by `title` and `.txt`, a name without `/` that is not `..`.
Each of the three handlers behind `makeHandler` runs with this title and touches no other
file: it leaves every other file as it was, the file of the title is afterwards what it
was before or the bytes of the form value `body`, and on two filesystems that agree on this
file the reply is the same and the file is the same afterwards, whatever the other files
hold. -/
theorem accepted_path_contained (templates : Template) (r : Request) (m : List String)
    (title : String) (hm : validPath.FindStringSubmatch r.Path = some m)
    (htitle : title = m.getD 2 "") :
    Join [htmlPath, title ++ ".txt"] = "/tmp/gowiki/pages/" ++ title ++ ".txt" ∧
    '/' ∉ (title ++ ".txt").data ∧ title ++ ".txt" ≠ ".." ∧ title ++ ".txt" ≠ "." ∧
    ∀ fn ∈ [viewHandler templates, editHandler templates, saveHandler],
      ∀ (w : ResponseWriter) (fs : FS),
        makeHandler fn w r fs = fn w r title fs ∧
        (∀ q, q ≠ "/tmp/gowiki/pages/" ++ title ++ ".txt" →
          (makeHandler fn w r fs).2.files q = fs.files q) ∧
        (∀ fs1 : FS,
          fs1.files ("/tmp/gowiki/pages/" ++ title ++ ".txt") =
            fs.files ("/tmp/gowiki/pages/" ++ title ++ ".txt") →
          fs1.writeErr ("/tmp/gowiki/pages/" ++ title ++ ".txt") =
            fs.writeErr ("/tmp/gowiki/pages/" ++ title ++ ".txt") →
          (makeHandler fn w r fs1).1 = (makeHandler fn w r fs).1) ∧
        (∀ fs1 : FS,
          fs1.files ("/tmp/gowiki/pages/" ++ title ++ ".txt") =
            fs.files ("/tmp/gowiki/pages/" ++ title ++ ".txt") →
          fs1.writeErr ("/tmp/gowiki/pages/" ++ title ++ ".txt") =
            fs.writeErr ("/tmp/gowiki/pages/" ++ title ++ ".txt") →
          (makeHandler fn w r fs1).2.files ("/tmp/gowiki/pages/" ++ title ++ ".txt") =
            (makeHandler fn w r fs).2.files ("/tmp/gowiki/pages/" ++ title ++ ".txt")) ∧
        ((makeHandler fn w r fs).2.files ("/tmp/gowiki/pages/" ++ title ++ ".txt") =
            fs.files ("/tmp/gowiki/pages/" ++ title ++ ".txt") ∨
          (makeHandler fn w r fs).2.files ("/tmp/gowiki/pages/" ++ title ++ ".txt") =
            some (bytes (r.FormValue "body"))) ∧
        (makeHandler fn w r fs).2.writeErr = fs.writeErr := by
  obtain ⟨p, t, hp, hne, hal, hs, hmt⟩ := FindStringSubmatch_some hm
  have ht : title = t := by rw [htitle, hmt]; rfl
  subst ht
  have hslash := alnum_ne_slash hal
  have hjoin := Join_title title hslash
  have hname : '/' ∉ (title ++ ".txt").data := by simp [String.data_append, hslash]
  have hlen : (title ++ ".txt").length = title.length + 4 := by
    simp [String.length_append]; rfl
  refine ⟨hjoin, hname, ?_, ?_, ?_⟩
  · intro h
    have h2 : (title ++ ".txt").length = 2 := by rw [h]; rfl
    omega
  · intro h
    have h2 : (title ++ ".txt").length = 1 := by rw [h]; rfl
    omega
  · intro fn hfn w fs
    have hrun : ∀ fs0, makeHandler fn w r fs0 = fn w r title fs0 := fun fs0 => by
      rw [makeHandler_match fn w r fs0 hm, hmt]; rfl
    have hj : "/tmp/gowiki/pages/" ++ title ++ ".txt" = Join [htmlPath, title ++ ".txt"] :=
      hjoin.symm
    simp only [List.mem_cons, List.mem_singleton, List.not_mem_nil, or_false] at hfn
    refine ⟨hrun fs, ?_, ?_, ?_, ?_, ?_⟩
    · intro q hq
      rw [hrun]
      rw [hj] at hq
      rcases hfn with hfn | hfn | hfn <;> subst hfn
      · rw [viewHandler_fs]
      · rw [editHandler_fs]
      · exact saveHandler_files w r title fs q hq
    · intro fs1 hfiles herr
      rw [hrun, hrun]
      rw [hj] at hfiles herr
      rcases hfn with hfn | hfn | hfn <;> subst hfn
      · exact viewHandler_congr templates w r title fs fs1 hfiles
      · exact editHandler_congr templates w r title fs fs1 hfiles
      · exact saveHandler_congr w r title fs fs1 herr
    · intro fs1 hfiles herr
      rw [hrun, hrun]
      rw [hj] at hfiles herr ⊢
      rcases hfn with hfn | hfn | hfn <;> subst hfn
      · rw [viewHandler_fs, viewHandler_fs]; exact hfiles
      · rw [editHandler_fs, editHandler_fs]; exact hfiles
      · rw [saveHandler_file_at, saveHandler_file_at, herr, hfiles]
    · rw [hrun, hj]
      rcases hfn with hfn | hfn | hfn <;> subst hfn
      · rw [viewHandler_fs]; exact Or.inl rfl
      · rw [editHandler_fs]; exact Or.inl rfl
      · rw [saveHandler_file_at]
        cases fs.writeErr (Join [htmlPath, title ++ ".txt"]) with
        | none => exact Or.inr rfl
        | some e => exact Or.inl rfl
    · rw [hrun]
      rcases hfn with hfn | hfn | hfn <;> subst hfn
      · rw [viewHandler_fs]
      · rw [editHandler_fs]
      · exact saveHandler_writeErr w r title fs

theorem accepted_path_contained_witness :
    (validPath.FindStringSubmatch (Request.mk "/save/TestPage" fun _ => "x").Path =
        some ["/save/TestPage", "save", "TestPage"] ∧
      "TestPage" = ["/save/TestPage", "save", "TestPage"].getD 2 "") ∧
    Join [htmlPath, "TestPage" ++ ".txt"] = "/tmp/gowiki/pages/" ++ "TestPage" ++ ".txt" ∧
    '/' ∉ ("TestPage" ++ ".txt").data ∧
    ((makeHandler saveHandler [] (Request.mk "/save/TestPage" fun _ => "x") sampleFS).2.files
        ("/tmp/gowiki/pages/" ++ "TestPage" ++ ".txt") =
        sampleFS.files ("/tmp/gowiki/pages/" ++ "TestPage" ++ ".txt") ∨
      (makeHandler saveHandler [] (Request.mk "/save/TestPage" fun _ => "x") sampleFS).2.files
        ("/tmp/gowiki/pages/" ++ "TestPage" ++ ".txt") =
        some (bytes ((Request.mk "/save/TestPage" fun _ => "x").FormValue "body"))) :=
  ⟨⟨by decide, rfl⟩,
    (accepted_path_contained ⟨fun _ _ => none⟩ (Request.mk "/save/TestPage" fun _ => "x")
      ["/save/TestPage", "save", "TestPage"] "TestPage" (by decide) rfl).1,
    (accepted_path_contained ⟨fun _ _ => none⟩ (Request.mk "/save/TestPage" fun _ => "x")
      ["/save/TestPage", "save", "TestPage"] "TestPage" (by decide) rfl).2.1,
    ((accepted_path_contained ⟨fun _ _ => none⟩ (Request.mk "/save/TestPage" fun _ => "x")
      ["/save/TestPage", "save", "TestPage"] "TestPage" (by decide) rfl).2.2.2.2
      saveHandler (by simp) [] sampleFS).2.2.2.2.1⟩

/-- C6: when `loadPage T` fails, `viewHandler` makes one call on the writer, a redirect
with status 302 to `/edit/` followed by `T`, and executes no template; when `loadPage T`
returns a page, it executes the template `view.html` on that page, followed only by the
error reply if the template fails, and makes no redirect. The filesystem is unchanged in
both cases. -/
theorem viewHandler_outcome (templates : Template) (w : ResponseWriter) (r : Request)
    (T : String) (fs : FS) :
    (∀ err, loadPage T fs = .error err →
      viewHandler templates w r T fs = (w ++ [.Redirect ("/edit/" ++ T) 302], fs)) ∧
    (∀ p, loadPage T fs = .ok p →
      p = { Title := T, Body := p.Body } ∧
      fs.files (Join [htmlPath, T ++ ".txt"]) = some p.Body ∧
      ∃ rest, viewHandler templates w r T fs = (w ++ .ExecuteTemplate "view.html" p :: rest, fs) ∧
        (rest = [] ∨ ∃ err, rest = [.Error err 500]) ∧
        ∀ url code, Call.Redirect url code ∉ .ExecuteTemplate "view.html" p :: rest) := by
  constructor
  · intro err h
    simp only [viewHandler, h]
    rfl
  · intro p h
    have hp : fs.files (Join [htmlPath, T ++ ".txt"]) = some p.Body ∧
        p = { Title := T, Body := p.Body } := by
      rw [loadPage_eq] at h
      cases hf : fs.files (Join [htmlPath, T ++ ".txt"]) with
      | none => rw [hf] at h; exact Except.noConfusion h
      | some body =>
        rw [hf] at h
        simp only at h
        injection h with h
        subst h
        exact ⟨rfl, rfl⟩
    refine ⟨hp.2, hp.1, ?_⟩
    have hv : viewHandler templates w r T fs = (renderTemplate templates w "view" p, fs) := by
      simp only [viewHandler, h]
    rw [hv, renderTemplate_eq]
    have hname : "view" ++ ".html" = "view.html" := by decide
    rw [hname]
    cases templates.ExecuteTemplate "view.html" p with
    | none => exact ⟨[], rfl, Or.inl rfl, by simp⟩
    | some e => exact ⟨[.Error e 500], rfl, Or.inr ⟨e, rfl⟩, by simp⟩

theorem sample_load_missing : loadPage "TestPage" emptyFS =
    .error "open /tmp/gowiki/pages/TestPage.txt: no such file or directory" := by
  rw [loadPage_eq]
  have hj : Join [htmlPath, "TestPage" ++ ".txt"] = "/tmp/gowiki/pages/TestPage.txt" := by decide
  rw [hj]
  rfl

theorem sample_load : loadPage "TestPage" sampleFS = .ok samplePage := by
  rw [loadPage_eq]
  have hj : Join [htmlPath, "TestPage" ++ ".txt"] = "/tmp/gowiki/pages/TestPage.txt" := by decide
  rw [hj]
  rfl

theorem viewHandler_outcome_witness :
    (loadPage "TestPage" emptyFS =
        .error "open /tmp/gowiki/pages/TestPage.txt: no such file or directory" ∧
      loadPage "TestPage" sampleFS = .ok samplePage) ∧
    viewHandler ⟨fun _ _ => none⟩ [] (Request.mk "/view/TestPage" fun _ => "") "TestPage" emptyFS =
      ([] ++ [.Redirect ("/edit/" ++ "TestPage") 302], emptyFS) ∧
    sampleFS.files (Join [htmlPath, "TestPage" ++ ".txt"]) = some samplePage.Body :=
  ⟨⟨sample_load_missing, sample_load⟩,
    (viewHandler_outcome ⟨fun _ _ => none⟩ [] (Request.mk "/view/TestPage" fun _ => "")
      "TestPage" emptyFS).1 _ sample_load_missing,
    ((viewHandler_outcome ⟨fun _ _ => none⟩ [] (Request.mk "/view/TestPage" fun _ => "")
      "TestPage" sampleFS).2 samplePage sample_load).2.1⟩

/-- C7: `editHandler` never changes the filesystem. When `loadPage T` fails it executes the
template `edit.html` on the page with title `T` and empty body; when `loadPage T` returns a
page, which has title `T` and the stored body, it executes `edit.html` on that page. In
both cases the only other call is the error reply if the template fails. -/
theorem editHandler_outcome (templates : Template) (w : ResponseWriter) (r : Request)
    (T : String) (fs : FS) :
    (editHandler templates w r T fs).2 = fs ∧
    (∀ err, loadPage T fs = .error err →
      ∃ rest, editHandler templates w r T fs =
          (w ++ .ExecuteTemplate "edit.html" { Title := T, Body := [] } :: rest, fs) ∧
        (rest = [] ∨ ∃ e, rest = [.Error e 500])) ∧
    (∀ p, loadPage T fs = .ok p →
      p.Title = T ∧ fs.files (Join [htmlPath, T ++ ".txt"]) = some p.Body ∧
      ∃ rest, editHandler templates w r T fs = (w ++ .ExecuteTemplate "edit.html" p :: rest, fs) ∧
        (rest = [] ∨ ∃ e, rest = [.Error e 500])) := by
  have hname : "edit" ++ ".html" = "edit.html" := by decide
  have hrender : ∀ p, ∃ rest, renderTemplate templates w "edit" p =
      w ++ .ExecuteTemplate "edit.html" p :: rest ∧ (rest = [] ∨ ∃ e, rest = [.Error e 500]) := by
    intro p
    rw [renderTemplate_eq, hname]
    cases templates.ExecuteTemplate "edit.html" p with
    | none => exact ⟨[], rfl, Or.inl rfl⟩
    | some e => exact ⟨[.Error e 500], rfl, Or.inr ⟨e, rfl⟩⟩
  refine ⟨rfl, ?_, ?_⟩
  · intro err h
    obtain ⟨rest, h1, h2⟩ := hrender { Title := T, Body := [] }
    refine ⟨rest, ?_, h2⟩
    simp only [editHandler, h, h1]
  · intro p h
    have hp : fs.files (Join [htmlPath, T ++ ".txt"]) = some p.Body ∧ p.Title = T := by
      rw [loadPage_eq] at h
      cases hf : fs.files (Join [htmlPath, T ++ ".txt"]) with
      | none => rw [hf] at h; exact Except.noConfusion h
      | some body =>
        rw [hf] at h
        simp only at h
        injection h with h
        subst h
        exact ⟨rfl, rfl⟩
    obtain ⟨rest, h1, h2⟩ := hrender p
    refine ⟨hp.2, hp.1, rest, ?_, h2⟩
    simp only [editHandler, h, h1]

theorem editHandler_outcome_witness :
    (loadPage "TestPage" emptyFS =
        .error "open /tmp/gowiki/pages/TestPage.txt: no such file or directory" ∧
      loadPage "TestPage" sampleFS = .ok samplePage) ∧
    (∃ rest, editHandler ⟨fun _ _ => none⟩ [] (Request.mk "/edit/TestPage" fun _ => "")
        "TestPage" emptyFS =
          ([] ++ .ExecuteTemplate "edit.html" { Title := "TestPage", Body := [] } :: rest,
            emptyFS) ∧
        (rest = [] ∨ ∃ e, rest = [.Error e 500])) ∧
    samplePage.Title = "TestPage" :=
  ⟨⟨sample_load_missing, sample_load⟩,
    (editHandler_outcome ⟨fun _ _ => none⟩ [] (Request.mk "/edit/TestPage" fun _ => "")
      "TestPage" emptyFS).2.1 _ sample_load_missing,
    ((editHandler_outcome ⟨fun _ _ => none⟩ [] (Request.mk "/edit/TestPage" fun _ => "")
      "TestPage" sampleFS).2.2 samplePage sample_load).1⟩

/-- C8: `saveHandler` saves the page with title `T` and the bytes of the form value `body`.
When the write succeeds, the file of `T` holds exactly these bytes, no other file is
changed, and the only call on the writer is a redirect with status 302 to `/view/`
followed by `T`. When the write fails with an error, the filesystem is unchanged and the
only call on the writer is the error reply with status 500 and this error's message. The
reply is an error reply exactly when the write fails. -/
theorem saveHandler_outcome (w : ResponseWriter) (r : Request) (T : String) (fs : FS) :
    (∀ fs1, (Page.mk T (bytes (r.FormValue "body"))).save fs = .ok fs1 →
      saveHandler w r T fs = (w ++ [.Redirect ("/view/" ++ T) 302], fs1) ∧
      fs1.files (Join [htmlPath, T ++ ".txt"]) = some (bytes (r.FormValue "body")) ∧
      loadPage T fs1 = .ok { Title := T, Body := bytes (r.FormValue "body") } ∧
      ∀ q, q ≠ Join [htmlPath, T ++ ".txt"] → fs1.files q = fs.files q) ∧
    (∀ err, (Page.mk T (bytes (r.FormValue "body"))).save fs = .error err →
      saveHandler w r T fs = (w ++ [.Error err 500], fs)) ∧
    ((∃ err, (saveHandler w r T fs).1 = w ++ [.Error err 500]) ↔
      ∃ err, (Page.mk T (bytes (r.FormValue "body"))).save fs = .error err) := by
  have hok : ∀ fs1, (Page.mk T (bytes (r.FormValue "body"))).save fs = .ok fs1 →
      saveHandler w r T fs = (w ++ [.Redirect ("/view/" ++ T) 302], fs1) := by
    intro fs1 h
    rw [saveHandler_eq, h]
    rfl
  have herr : ∀ err, (Page.mk T (bytes (r.FormValue "body"))).save fs = .error err →
      saveHandler w r T fs = (w ++ [.Error err 500], fs) := by
    intro err h
    rw [saveHandler_eq, h]
    rfl
  refine ⟨?_, herr, ?_⟩
  · intro fs1 h
    have h1 := ((save_ok_iff ⟨T, bytes (r.FormValue "body")⟩ fs fs1).1 h).2
    refine ⟨hok fs1 h, ?_, loadPage_after_save ⟨T, bytes (r.FormValue "body")⟩ fs fs1 h, ?_⟩
    · rw [h1]; simp
    · intro q hq
      rw [h1]
      simp [hq]
  · constructor
    · rintro ⟨err, h⟩
      cases hs : (Page.mk T (bytes (r.FormValue "body"))).save fs with
      | error e => exact ⟨e, rfl⟩
      | ok fs1 =>
        rw [hok fs1 hs] at h
        simp at h
    · rintro ⟨err, h⟩
      exact ⟨err, by rw [herr err h]⟩

theorem sample_save_refused : samplePage.save readOnlyFS =
    .error "open /tmp/gowiki/pages/TestPage.txt: permission denied" := by
  rw [save_error_iff]
  have hj : Join [htmlPath, samplePage.Title ++ ".txt"] = "/tmp/gowiki/pages/TestPage.txt" := by
    decide
  rw [hj]
  rfl

theorem saveHandler_outcome_witness :
    ((Page.mk "TestPage"
        (bytes ((Request.mk "/save/TestPage" fun _ => "This is a sample Page.").FormValue
          "body"))).save emptyFS = .ok sampleFS ∧
      (Page.mk "TestPage"
        (bytes ((Request.mk "/save/TestPage" fun _ => "This is a sample Page.").FormValue
          "body"))).save readOnlyFS =
        .error "open /tmp/gowiki/pages/TestPage.txt: permission denied") ∧
    saveHandler [] (Request.mk "/save/TestPage" fun _ => "This is a sample Page.") "TestPage"
      emptyFS = ([] ++ [.Redirect ("/view/" ++ "TestPage") 302], sampleFS) ∧
    saveHandler [] (Request.mk "/save/TestPage" fun _ => "This is a sample Page.") "TestPage"
      readOnlyFS =
      ([] ++ [.Error "open /tmp/gowiki/pages/TestPage.txt: permission denied" 500],
        readOnlyFS) :=
  ⟨⟨sample_save, sample_save_refused⟩,
    ((saveHandler_outcome [] (Request.mk "/save/TestPage" fun _ => "This is a sample Page.")
      "TestPage" emptyFS).1 sampleFS sample_save).1,
    (saveHandler_outcome [] (Request.mk "/save/TestPage" fun _ => "This is a sample Page.")
      "TestPage" readOnlyFS).2.1 _ sample_save_refused⟩

/-! ## The registrations of `main` -/

/-! ## The registrations of `main` -/

/-- A last path element without `/` that does not begin with `.` is copied as it is. -/
theorem cleanLoop_last_plain (n : Nat) (c : Char) (cs out : List Char) (dotdot : Nat)
    (hdot : c ≠ '.') (hns : '/' ∉ c :: cs) (hout : out.length ≠ 1) :
    cleanLoop true (n + 1) (c :: cs) out dotdot = out ++ '/' :: c :: cs := by
  obtain ⟨_, _, h3, h4⟩ := takeWhile_ne_slash hns []
  have hc : c ≠ '/' := fun hc => hns (by simp [hc])
  have hn2 : ¬(c = '.' ∧ (cs = [] ∨ cs.head? = some '/')) := fun h => hdot h.1
  have hn3 : ¬(c = '.' ∧ cs.head? = some '.' ∧ (cs.tail = [] ∨ cs.tail.head? = some '/')) :=
    fun h => hdot h.1
  rw [cleanLoop, if_neg hc, if_neg hn2, if_neg hn3, h3, h4]
  simp [cleanLoop_nil, hout]

/-- The loop of `Clean` on one of the three words, a slash and a last element that is
copied as it is. -/
theorem cleanLoop_word (n : Nat) (wd e : List Char)
    (hw : wd ∈ [['e', 'd', 'i', 't'], ['s', 'a', 'v', 'e'], ['v', 'i', 'e', 'w']])
    (hlast : ∀ (k : Nat) (out : List Char), out.length ≠ 1 →
      cleanLoop true (k + 1) e out 1 = out ++ '/' :: e) :
    cleanLoop true (n + 3) (wd ++ '/' :: e) ['/'] 1 = '/' :: (wd ++ '/' :: e) := by
  simp only [List.mem_cons, List.mem_singleton, List.not_mem_nil, or_false] at hw
  rcases hw with hw | hw | hw <;> subst hw <;>
    simp [cleanLoop, List.takeWhile_cons, List.dropWhile_cons, hlast]

/-- A path made of one of the three prefixes and a non-empty title of ASCII letters and
digits is left as it is by `path.Clean`. -/
theorem Clean_accepted (q t : String) (hq : q ∈ ["/edit/", "/save/", "/view/"]) (hne : t ≠ "")
    (hal : ∀ c ∈ t.data, c.isAlphanum = true) : Clean (q ++ t) = q ++ t := by
  have hslash := alnum_ne_slash hal
  have hne1 : t.data ≠ [] := fun h => hne (String.ext h)
  obtain ⟨c, cs, hcs⟩ := List.exists_cons_of_ne_nil hne1
  have hdot : c ≠ '.' := by
    intro h
    have := hal c (by rw [hcs]; simp)
    rw [h] at this
    exact absurd this (by decide)
  have hns : '/' ∉ c :: cs := by rw [← hcs]; exact hslash
  have hlast : ∀ (k : Nat) (out : List Char), out.length ≠ 1 →
      cleanLoop true (k + 1) t.data out 1 = out ++ '/' :: t.data := by
    intro k out ho
    rw [hcs]
    exact cleanLoop_last_plain k c cs out 1 hdot hns ho
  obtain ⟨wd, hw, hd⟩ : ∃ wd, wd ∈ [['e', 'd', 'i', 't'], ['s', 'a', 'v', 'e'],
      ['v', 'i', 'e', 'w']] ∧ (q ++ t).data = '/' :: (wd ++ '/' :: t.data) := by
    simp only [List.mem_cons, List.mem_singleton, List.not_mem_nil, or_false] at hq
    rcases hq with hq | hq | hq <;> subst hq
    · exact ⟨['e', 'd', 'i', 't'], by simp, by simp [String.data_append]⟩
    · exact ⟨['s', 'a', 'v', 'e'], by simp, by simp [String.data_append]⟩
    · exact ⟨['v', 'i', 'e', 'w'], by simp, by simp [String.data_append]⟩
  have hwl : wd.length = 4 := by
    simp only [List.mem_cons, List.mem_singleton, List.not_mem_nil, or_false] at hw
    rcases hw with hw | hw | hw <;> subst hw <;> rfl
  have hnz : q ++ t ≠ "" := by
    intro h
    have := congrArg String.data h
    rw [hd] at this
    simp at this
  have hl : (q ++ t).length = t.data.length + 3 + 3 := by
    show (q ++ t).data.length = _
    rw [hd]
    simp [hwl]
    omega
  unfold Clean
  rw [if_neg hnz]
  simp only [hd, hl, List.head?_cons, List.tail_cons, if_true]
  rw [cleanLoop_word _ wd t.data hw hlast]
  simp only [List.length_cons, Nat.succ_ne_zero, if_false]
  exact String.ext hd.symm

theorem cleanPath_accepted (q t : String) (hq : q ∈ ["/edit/", "/save/", "/view/"])
    (hne : t ≠ "") (hal : ∀ c ∈ t.data, c.isAlphanum = true) : cleanPath (q ++ t) = q ++ t := by
  have hslash := alnum_ne_slash hal
  have hne1 : t.data ≠ [] := fun h => hne (String.ext h)
  have hhead : (q ++ t).data.head? = some '/' := by
    simp only [List.mem_cons, List.mem_singleton, List.not_mem_nil, or_false] at hq
    rcases hq with hq | hq | hq <;> subst hq <;> simp [String.data_append]
  have hnz : q ++ t ≠ "" := by
    intro h
    rw [h] at hhead
    exact Option.noConfusion hhead
  have hlastc : ¬((q ++ t).data.getLast? = some '/' ∧ Clean (q ++ t) ≠ "/") := by
    rintro ⟨h, _⟩
    rw [String.data_append, List.getLast?_append] at h
    cases hl : t.data.getLast? with
    | none => exact hne1 (List.getLast?_eq_none_iff.1 hl)
    | some x =>
      rw [hl] at h
      simp only [Option.or] at h
      injection h with h
      subst h
      exact hslash (List.mem_of_getLast?_eq_some hl)
  unfold cleanPath
  rw [if_neg hnz]
  simp only [hhead, if_true]
  rw [if_neg hlastc]
  exact Clean_accepted q t hq hne hal

theorem pattern_ne_path (q p t : String) (hq : q.length = 6) (hp : p.length = 6) (hne : t ≠ "") :
    q ≠ p ++ t := by
  intro h
  have h2 : q.length = p.length + t.length := by rw [h, String.length_append]
  have h3 : t.length = 0 := by omega
  exact hne (String.ext (List.length_eq_zero.1 h3))

theorem pattern_ne_path_slash (q p t : String) (hq : q.length = 6) (hp : p.length = 6) :
    q ≠ p ++ t ++ "/" := by
  intro h
  have h2 : q.length = p.length + t.length + 1 := by
    rw [h, String.length_append, String.length_append]; rfl
  omega

theorem main_handler_view (templates : Template) (t : String) (hne : t ≠ "") :
    ServeMux.handler (main templates) ("/view/" ++ t) =
      some ("/view/", makeHandler (viewHandler templates)) := by
  have hd : ("/view/" ++ t).data = '/' :: 'v' :: 'i' :: 'e' :: 'w' :: '/' :: t.data := by
    simp [String.data_append]
  have f1 := pattern_ne_path "/view/" "/view/" t rfl rfl hne
  have f2 := pattern_ne_path "/edit/" "/view/" t rfl rfl hne
  have f3 := pattern_ne_path "/save/" "/view/" t rfl rfl hne
  simp [ServeMux.handler, main, HandleFunc, List.find?, f1, f2, f3, hd, List.filter,
    List.isPrefixOf]

theorem main_handler_edit (templates : Template) (t : String) (hne : t ≠ "") :
    ServeMux.handler (main templates) ("/edit/" ++ t) =
      some ("/edit/", makeHandler (editHandler templates)) := by
  have hd : ("/edit/" ++ t).data = '/' :: 'e' :: 'd' :: 'i' :: 't' :: '/' :: t.data := by
    simp [String.data_append]
  have f1 := pattern_ne_path "/view/" "/edit/" t rfl rfl hne
  have f2 := pattern_ne_path "/edit/" "/edit/" t rfl rfl hne
  have f3 := pattern_ne_path "/save/" "/edit/" t rfl rfl hne
  simp [ServeMux.handler, main, HandleFunc, List.find?, f1, f2, f3, hd, List.filter,
    List.isPrefixOf]

theorem main_handler_save (templates : Template) (t : String) (hne : t ≠ "") :
    ServeMux.handler (main templates) ("/save/" ++ t) =
      some ("/save/", makeHandler saveHandler) := by
  have hd : ("/save/" ++ t).data = '/' :: 's' :: 'a' :: 'v' :: 'e' :: '/' :: t.data := by
    simp [String.data_append]
  have f1 := pattern_ne_path "/view/" "/save/" t rfl rfl hne
  have f2 := pattern_ne_path "/edit/" "/save/" t rfl rfl hne
  have f3 := pattern_ne_path "/save/" "/save/" t rfl rfl hne
  simp [ServeMux.handler, main, HandleFunc, List.find?, f1, f2, f3, hd, List.filter,
    List.isPrefixOf]

theorem main_shouldRedirect (templates : Template) (q t : String)
    (hq : q ∈ ["/edit/", "/save/", "/view/"]) (hne : t ≠ "") :
    ServeMux.shouldRedirect (main templates) (q ++ t) = false := by
  have hql : q.length = 6 := pattern_length hq
  have f1 := pattern_ne_path "/view/" q t rfl hql hne
  have f2 := pattern_ne_path "/edit/" q t rfl hql hne
  have f3 := pattern_ne_path "/save/" q t rfl hql hne
  have g1 := pattern_ne_path_slash "/view/" q t rfl hql
  have g2 := pattern_ne_path_slash "/edit/" q t rfl hql
  have g3 := pattern_ne_path_slash "/save/" q t rfl hql
  simp [ServeMux.shouldRedirect, main, HandleFunc, f1, f2, f3, g1, g2, g3]

/-- On a path made of one of the three prefixes and a non-empty title of ASCII letters and
digits, the mux of `main` makes no redirect: it runs the handler it selects for the path. -/
theorem main_Handler (templates : Template) (r : Request) (q t : String)
    (hq : q ∈ ["/edit/", "/save/", "/view/"]) (hne : t ≠ "")
    (hal : ∀ c ∈ t.data, c.isAlphanum = true) (hpath : r.Path = q ++ t) :
    ServeMux.Handler (main templates) r =
      match ServeMux.handler (main templates) r.Path with
      | some e => e.2
      | none => fun w r1 fs => (NotFound w r1, fs) := by
  unfold ServeMux.Handler
  simp only [hpath, cleanPath_accepted q t hq hne hal, main_shouldRedirect templates q t hq hne,
    ne_eq, not_true_eq_false, if_false, Bool.false_eq_true]

/-- A path has at most one reading as one of the three prefixes followed by a text. -/
theorem pattern_unique {q q1 t t1 : String} (hq : q ∈ ["/edit/", "/save/", "/view/"])
    (hq1 : q1 ∈ ["/edit/", "/save/", "/view/"]) (h : q ++ t = q1 ++ t1) : q = q1 ∧ t = t1 := by
  have hd := congrArg String.data h
  simp only [String.data_append] at hd
  have hlen : q.data.length = q1.data.length := by
    rw [pattern_length hq, pattern_length hq1]
  exact ⟨String.ext (List.append_inj hd hlen).1, String.ext (List.append_inj hd hlen).2⟩

/-- The submatches of an accepted path: the prefix of the path goes with the word that is
the first subexpression, the rest of the path is the second. -/
theorem accepted_cases {s : String} {m : List String}
    (hm : validPath.FindStringSubmatch s = some m) :
    ∃ q p t, (q, p) ∈ [("/view/", "view"), ("/edit/", "edit"), ("/save/", "save")] ∧
      t ≠ "" ∧ (∀ c ∈ t.data, c.isAlphanum = true) ∧ s = q ++ t ∧ m = [s, p, t] := by
  obtain ⟨p, t, hp, hne, hal, hs, hmt⟩ := FindStringSubmatch_some hm
  simp only [List.mem_cons, List.mem_singleton, List.not_mem_nil, or_false] at hp
  rcases hp with hp | hp | hp <;> subst hp
  · exact ⟨"/edit/", "edit", t, by simp, hne, hal, by rw [hs]; cases t; rfl, hmt⟩
  · exact ⟨"/save/", "save", t, by simp, hne, hal, by rw [hs]; cases t; rfl, hmt⟩
  · exact ⟨"/view/", "view", t, by simp, hne, hal, by rw [hs]; cases t; rfl, hmt⟩

/-- C9: with the registrations of `main`, for every request path that matches `validPath`
the operation invoked is the one the prefix names. When the path starts with `/view/` the
first subexpression is `view`, the mux selects the handler registered under `/view/`,
which is the one built by `makeHandler` from `viewHandler`, and serving the request is
running `viewHandler` with the title; likewise `editHandler` for `/edit/` and `saveHandler`
for `/save/`. So the mux runs the handler built from an operation only on paths whose
first subexpression names that operation. -/
theorem main_runs_matching_operation (templates : Template) (w : ResponseWriter)
    (r : Request) (fs : FS) (m : List String)
    (hm : validPath.FindStringSubmatch r.Path = some m) :
    (r.Path = "/view/" ++ m.getD 2 "" ∨ r.Path = "/edit/" ++ m.getD 2 "" ∨
      r.Path = "/save/" ++ m.getD 2 "") ∧
    (∀ x, r.Path = "/view/" ++ x →
      m.getD 1 "" = "view" ∧ m.getD 2 "" = x ∧
      ServeMux.handler (main templates) r.Path =
        some ("/view/", makeHandler (viewHandler templates)) ∧
      ServeMux.ServeHTTP (main templates) w r fs = viewHandler templates w r x fs) ∧
    (∀ x, r.Path = "/edit/" ++ x →
      m.getD 1 "" = "edit" ∧ m.getD 2 "" = x ∧
      ServeMux.handler (main templates) r.Path =
        some ("/edit/", makeHandler (editHandler templates)) ∧
      ServeMux.ServeHTTP (main templates) w r fs = editHandler templates w r x fs) ∧
    (∀ x, r.Path = "/save/" ++ x →
      m.getD 1 "" = "save" ∧ m.getD 2 "" = x ∧
      ServeMux.handler (main templates) r.Path =
        some ("/save/", makeHandler saveHandler) ∧
      ServeMux.ServeHTTP (main templates) w r fs = saveHandler w r x fs) := by
  obtain ⟨q, p, t, hqp, hne, hal, hs, hmt⟩ := accepted_cases hm
  have hq : q ∈ ["/edit/", "/save/", "/view/"] := by
    simp only [List.mem_cons, List.mem_singleton, List.not_mem_nil, or_false,
      Prod.mk.injEq] at hqp ⊢
    rcases hqp with ⟨h, _⟩ | ⟨h, _⟩ | ⟨h, _⟩ <;> simp [h]
  have hm2 : m.getD 2 "" = t := by rw [hmt]; rfl
  have hm1 : m.getD 1 "" = p := by rw [hmt]; rfl
  have hserve : ∀ fn : TitleHandler,
      ServeMux.handler (main templates) r.Path = some (q, makeHandler fn) →
      ServeMux.ServeHTTP (main templates) w r fs = fn w r t fs := by
    intro fn hsel
    unfold ServeMux.ServeHTTP
    rw [main_Handler templates r q t hq hne hal hs, hsel]
    simp only
    rw [makeHandler_match fn w r fs hm, hm2]
  refine ⟨?_, ?_, ?_, ?_⟩
  · rw [hm2]
    simp only [List.mem_cons, List.mem_singleton, List.not_mem_nil, or_false,
      Prod.mk.injEq] at hqp
    rcases hqp with ⟨h, _⟩ | ⟨h, _⟩ | ⟨h, _⟩ <;> subst h <;> simp [hs]
  · intro x hx
    obtain ⟨e1, e2⟩ := pattern_unique hq (by simp) (hs.symm.trans hx)
    subst e1 e2
    have hp : p = "view" := by
      simp only [List.mem_cons, List.mem_singleton, List.not_mem_nil, or_false,
        Prod.mk.injEq] at hqp
      rcases hqp with ⟨_, h⟩ | ⟨h, _⟩ | ⟨h, _⟩
      · exact h
      · exact absurd h (by decide)
      · exact absurd h (by decide)
    have hsel := main_handler_view templates t hne
    rw [← hs] at hsel
    exact ⟨hm1.trans hp, hm2, hsel, hserve _ hsel⟩
  · intro x hx
    obtain ⟨e1, e2⟩ := pattern_unique hq (by simp) (hs.symm.trans hx)
    subst e1 e2
    have hp : p = "edit" := by
      simp only [List.mem_cons, List.mem_singleton, List.not_mem_nil, or_false,
        Prod.mk.injEq] at hqp
      rcases hqp with ⟨h, _⟩ | ⟨_, h⟩ | ⟨h, _⟩
      · exact absurd h (by decide)
      · exact h
      · exact absurd h (by decide)
    have hsel := main_handler_edit templates t hne
    rw [← hs] at hsel
    exact ⟨hm1.trans hp, hm2, hsel, hserve _ hsel⟩
  · intro x hx
    obtain ⟨e1, e2⟩ := pattern_unique hq (by simp) (hs.symm.trans hx)
    subst e1 e2
    have hp : p = "save" := by
      simp only [List.mem_cons, List.mem_singleton, List.not_mem_nil, or_false,
        Prod.mk.injEq] at hqp
      rcases hqp with ⟨h, _⟩ | ⟨h, _⟩ | ⟨_, h⟩
      · exact absurd h (by decide)
      · exact absurd h (by decide)
      · exact h
    have hsel := main_handler_save templates t hne
    rw [← hs] at hsel
    exact ⟨hm1.trans hp, hm2, hsel, hserve _ hsel⟩

theorem main_runs_matching_operation_witness :
    validPath.FindStringSubmatch (Request.mk "/edit/TestPage" fun _ => "").Path =
      some ["/edit/TestPage", "edit", "TestPage"] ∧
    ["/edit/TestPage", "edit", "TestPage"].getD 1 "" = "edit" ∧
    ["/edit/TestPage", "edit", "TestPage"].getD 2 "" = "TestPage" ∧
    ServeMux.handler (main ⟨fun _ _ => none⟩) (Request.mk "/edit/TestPage" fun _ => "").Path =
      some ("/edit/", makeHandler (editHandler ⟨fun _ _ => none⟩)) ∧
    ServeMux.ServeHTTP (main ⟨fun _ _ => none⟩) [] (Request.mk "/edit/TestPage" fun _ => "")
        sampleFS =
      editHandler ⟨fun _ _ => none⟩ [] (Request.mk "/edit/TestPage" fun _ => "") "TestPage"
        sampleFS :=
  ⟨by decide,
    (main_runs_matching_operation ⟨fun _ _ => none⟩ [] (Request.mk "/edit/TestPage" fun _ => "")
      sampleFS ["/edit/TestPage", "edit", "TestPage"] (by decide)).2.2.1 "TestPage" (by decide)⟩

/-- Sample requests on the mux of `main`: a registered prefix without its trailing slash
and a path that is not in canonical form are redirected with status 301, an unknown
prefix and a title that the pattern rejects get the not-found reply. -/
theorem main_serve_samples :
    (ServeMux.ServeHTTP (main ⟨fun _ _ => none⟩) [] (Request.mk "/view" fun _ => "") emptyFS).1 =
      [.Redirect "/view/" 301] ∧
    (ServeMux.ServeHTTP (main ⟨fun _ _ => none⟩) [] (Request.mk "/view//a/../b" fun _ => "")
      emptyFS).1 = [.Redirect "/view/b" 301] ∧
    (ServeMux.ServeHTTP (main ⟨fun _ _ => none⟩) [] (Request.mk "/delete/a" fun _ => "")
      emptyFS).1 = [.Error "404 page not found" 404] ∧
    (ServeMux.ServeHTTP (main ⟨fun _ _ => none⟩) [] (Request.mk "/view/a.b" fun _ => "")
      emptyFS).1 = [.Error "404 page not found" 404] ∧
    (ServeMux.ServeHTTP (main ⟨fun _ _ => none⟩) [] (Request.mk "/view/" fun _ => "")
      emptyFS).1 = [.Error "404 page not found" 404] := by
  decide

end GoWiki
